import Mathlib

/-!
# Query compilation of the Elasticsearch storage layer

A shallow embedding of `storage/constants.go` and `storage/util.go`
(package `esstorage`), followed by theorems about the translation of a
`ListOptions` value into the expressions, page size, offset and sort list of
a `QueryBuilder`.

Conventions of the embedding:

* a Go slice that is compared with `nil` is an `Option (List _)`, with `none`
  for the nil slice and `some []` for a present slice of length zero;
* a Go interface value that is compared with `nil` is an `Option`;
* `int` is the 64 bit integer of the platforms the storage runs on;
* a function that mutates the builder through its pointer returns the
  builder it leaves behind, together with the error, or the fact that it
  panicked.
-/

namespace esstorage

/-! ## constants.go -/

def ObjectPath : String := "object"
def ClusterPath : String := "object.metadata.annotations.shadow.clusterpedia.io/cluster-name"
def NameSpacePath : String := "object.metadata.namespace"
def NamePath : String := "object.metadata.name"
def OwnerReferencePath : String := "object.metadata.ownerReferences.uid"
def CreationTimestampPath : String := "object.metadata.creationTimestamp"
def ResourceVersionPath : String := "object.metadata.resourceVersion"
def LabelPath : String := "object.metadata.labels"
def GroupPath : String := "group"
def VersionPath : String := "version"
def ResourcePath : String := "resource"
def UIDPath : String := "object.metadata.uid"
def ApiVersionPath : String := "object.apiVersion"
def KindPath : String := "object.kind"
def ObjectMetaPath : String := "object.metadata"

/-- The reserved key of the extra label selector (util.go, line 21). -/
def ElasticSearchLabelFuzzyName : String := "elasticsearchstorage.clusterpedia.io/fuzzy-name"

/-! ## Types of the libraries the translation reads -/

/-- The operators of `k8s.io/apimachinery/pkg/selection`. -/
inductive Operator where
  | DoesNotExist
  | Equals
  | DoubleEquals
  | In
  | NotEquals
  | NotIn
  | Exists
  | GreaterThan
  | LessThan
  deriving DecidableEq, Repr

/-- A `metav1.Time`, reduced to its instant in seconds. -/
structure Time where
  unix : Int
  deriving DecidableEq, Repr

/-- What a selector interface answers to `Requirements()`: the requirements
and the `selectable` flag. -/
structure Selector (R : Type) where
  requirements : List R
  selectable : Bool
  deriving DecidableEq, Repr

/-- A requirement of a label selector, seen through its accessors `Key()`,
`Operator()` and `Values().List()`. -/
structure LabelRequirement where
  key : String
  operator : Operator
  valuesList : List String
  deriving DecidableEq, Repr

/-- A field of an enhanced field selector requirement, seen through
`Name()`, `IsList()` and `Path()` (the path printed as a string). -/
structure Field where
  name : String
  isList : Bool
  path : String
  deriving DecidableEq, Repr

/-- A requirement of the enhanced field selector, seen through `Fields()`,
`Operator()` and `Values().List()`. The selector library builds a requirement
from a key that names at least one field; the slice type itself does not say
so, and the theorems that rely on it carry it as a hypothesis. -/
structure FieldRequirement where
  fields : List Field
  operator : Operator
  valuesList : List String
  deriving DecidableEq, Repr

/-- One sort key of `ListOptions.OrderBy`. -/
structure OrderBy where
  Field : String
  Desc : Bool
  deriving DecidableEq, Repr

/-- The fields of `internal.ListOptions` that the translation reads. -/
structure ListOptions where
  ClusterNames : Option (List String)
  Namespaces : Option (List String)
  Names : Option (List String)
  Since : Option Time
  Before : Option Time
  LabelSelector : Option (Selector LabelRequirement)
  ExtraLabelSelector : Option (Selector LabelRequirement)
  EnhancedFieldSelector : Option (Selector FieldRequirement)
  Limit : Int
  Continue : String
  OrderBy : List OrderBy
  OwnerUID : String
  OwnerName : String
  deriving DecidableEq, Repr

/-- One `field.Error` built by `field.Invalid(path, value, detail)`. -/
structure FieldError where
  field : String
  badValue : String
  detail : String
  deriving DecidableEq, Repr

/-- The status error built by `apierrors.NewInvalid(kind, name, errs)`. -/
structure StatusError where
  group : String
  kind : String
  name : String
  causes : List FieldError
  deriving DecidableEq, Repr

/-! ## Expressions and the query builder -/

/-- The logical combinator of an expression; the source names the forbidden
one `MustNot`. -/
inductive LogicType where
  | Must
  | MustNot
  | Should
  deriving DecidableEq, Repr

/-- Modelled from the spec: the match kind of an expression. The expression
types are declared outside `util.go`; the specification gives the four kinds
Term, Range with two optional bounds, Wildcard and Fuzzy. -/
inductive ExprKind where
  | Term
  | Range (low high : Option Time)
  | Wildcard
  | Fuzzy
  deriving DecidableEq, Repr

/-- Modelled from the spec: an expression is a path, an ordered sequence of
values, a match kind and a combinator. -/
structure Expression where
  path : String
  values : List String
  kind : ExprKind
  logic : LogicType
  deriving DecidableEq, Repr

/-- Modelled from the spec: the constructor `term(path, values)`, Required
by default. -/
def NewTerms (path : String) (values : List String) : Expression :=
  { path := path, values := values, kind := ExprKind.Term, logic := LogicType.Must }

/-- Modelled from the spec: the constructor `range(path, low, high)`,
Required by default; it carries the two bounds and no value. -/
def NewRange (path : String) (low high : Option Time) : Expression :=
  { path := path, values := [], kind := ExprKind.Range low high, logic := LogicType.Must }

/-- Modelled from the spec: the constructor `wildcard(path, value)`, Required
by default, on a single value. -/
def NewWildcard (path : String) (value : String) : Expression :=
  { path := path, values := [value], kind := ExprKind.Wildcard, logic := LogicType.Must }

/-- Modelled from the spec: the constructor `fuzzy(path, value)`, Required by
default, on a single value. -/
def NewFuzzy (path : String) (value : String) : Expression :=
  { path := path, values := [value], kind := ExprKind.Fuzzy, logic := LogicType.Must }

/-- Modelled from the spec: the only mutation of an expression, which
overwrites its combinator. -/
def Expression.SetLogicType (e : Expression) (t : LogicType) : Expression :=
  { e with logic := t }

/-- A map with string keys, as an association list in insertion order. -/
abbrev StrMap (V : Type) := List (String × V)

/-- The value `sortQuery` returns: a map from a path to a map from `"order"`
to the direction. -/
abbrev SortItem := StrMap (StrMap String)

/-- Modelled from the spec: the accumulator of expressions with the sort
list, the page size and the offset (`builder.from` in the source). -/
structure QueryBuilder where
  size : Int
  from_ : Int
  sort : List SortItem
  expressions : List Expression
  deriving DecidableEq, Repr

/-- Modelled from the spec: a fresh builder holds no expression and no sort
key; its page size is the default 500 and its offset 0. -/
def NewQueryBuilder : QueryBuilder :=
  { size := 500, from_ := 0, sort := [], expressions := [] }

/-- Modelled from the spec: `addExpression` appends to the sequence, with no
deduplication. -/
def QueryBuilder.addExpression (b : QueryBuilder) (e : Expression) : QueryBuilder :=
  { b with expressions := b.expressions ++ [e] }

/-! ## strconv.Atoi on a 64 bit platform -/

/-- The two causes of a `strconv.NumError`. -/
inductive NumErr where
  | ErrSyntax
  | ErrRange
  deriving DecidableEq, Repr

def maxUint64 : Nat := 2 ^ 64 - 1

def isDigit (c : Char) : Bool := 48 ≤ c.toNat && c.toNat ≤ 57

/-- The digit loop of `strconv.ParseUint(s, 10, 64)`: a byte that is no
decimal digit ends it with value 0 and a syntax error, an overflow ends it at
once with the largest value and a range error. -/
def parseUintLoop : List Char → Nat → Nat × Option NumErr
  | [], n => (n, none)
  | c :: cs, n =>
    if !isDigit c then (0, some NumErr.ErrSyntax)
    else
      let d := c.toNat - 48
      if n ≥ maxUint64 / 10 + 1 then (maxUint64, some NumErr.ErrRange)
      else
        let m := (n * 10) % 2 ^ 64
        let n1 := (m + d) % 2 ^ 64
        if n1 < m || n1 > maxUint64 then (maxUint64, some NumErr.ErrRange)
        else parseUintLoop cs n1

/-- The function `strconv.ParseUint(s, 10, 64)`. -/
def ParseUint (s : List Char) : Nat × Option NumErr :=
  if s = [] then (0, some NumErr.ErrSyntax) else parseUintLoop s 0

/-- The conversion `int64(un)` of an unsigned 64 bit value. -/
def toInt64 (un : Nat) : Int :=
  if un % 2 ^ 64 < 2 ^ 63 then (un % 2 ^ 64 : Nat) else ((un % 2 ^ 64 : Nat) : Int) - 2 ^ 64

/-- The negation of a 64 bit integer, which wraps at the least value. -/
def negInt64 (n : Int) : Int :=
  if n = -(2 ^ 63) then n else -n

/-- The function `strconv.ParseInt(s, 10, 0)`, whose bit size 0 stands for
`int`. -/
def ParseInt (s : List Char) : Int × Option NumErr :=
  match s with
  | [] => (0, some NumErr.ErrSyntax)
  | c :: cs =>
    let neg := c == '-'
    let s1 := if c == '+' || c == '-' then cs else c :: cs
    let r := ParseUint s1
    if r.2 = some NumErr.ErrSyntax then (0, some NumErr.ErrSyntax)
    else
      let un := r.1
      let cutoff : Nat := 2 ^ 63
      if !neg && un ≥ cutoff then (((cutoff - 1 : Nat) : Int), some NumErr.ErrRange)
      else if neg && un > cutoff then (-(cutoff : Int), some NumErr.ErrRange)
      else
        let n := toInt64 un
        (if neg then negInt64 n else n, none)

/-- The digit loop of the fast path of `strconv.Atoi`. -/
def atoiFastLoop : List Char → Int → Option Int
  | [], n => some n
  | c :: cs, n =>
    if !isDigit c then none else atoiFastLoop cs (n * 10 + ((c.toNat - 48 : Nat) : Int))

/-- The function `strconv.Atoi`: the value and the error it returns. Strings
of 1 to 18 bytes take the fast path, every other string goes through
`ParseInt`. -/
def Atoi (s : String) : Int × Option NumErr :=
  let sLen := s.utf8ByteSize
  if 0 < sLen && sLen < 19 then
    match s.toList with
    | [] => (0, some NumErr.ErrSyntax)
    | c :: cs =>
      let signed := c == '-' || c == '+'
      let digits := if signed then cs else c :: cs
      if signed && digits.length < 1 then (0, some NumErr.ErrSyntax)
      else
        match atoiFastLoop digits 0 with
        | none => (0, some NumErr.ErrSyntax)
        | some n => (if c == '-' then -n else n, none)
  else ParseInt s.toList

/-! ## util.go -/

/-- How a call that works on the builder through its pointer ends: it
returns nil, it returns an error, or it panics. In the first two cases the
builder is the one the call leaves behind. -/
inductive Result where
  | ok (builder : QueryBuilder)
  | err (builder : QueryBuilder) (e : StatusError)
  | panicked
  deriving DecidableEq, Repr

/-- The requirements a selector block iterates over: none when the selector
is nil or when `Requirements()` answers that it is not selectable. -/
def iterated {R : Type} (sel : Option (Selector R)) : List R :=
  match sel with
  | none => []
  | some s => if s.selectable then s.requirements else []

/-- Lines 25 to 36: one Term expression for each of the three name sets that
is not nil. -/
def applyNameSets (builder : QueryBuilder) (opts : ListOptions) : QueryBuilder :=
  let builder := match opts.ClusterNames with
    | some names => builder.addExpression (NewTerms ClusterPath names)
    | none => builder
  let builder := match opts.Namespaces with
    | some names => builder.addExpression (NewTerms NameSpacePath names)
    | none => builder
  match opts.Names with
  | some names => builder.addExpression (NewTerms NamePath names)
  | none => builder

/-- Lines 38 to 42: the range over the creation timestamp. -/
def applyTimeRange (builder : QueryBuilder) (opts : ListOptions) : QueryBuilder :=
  if opts.Since.isSome || opts.Before.isSome then
    builder.addExpression (NewRange CreationTimestampPath opts.Since opts.Before)
  else builder

/-- Lines 47 to 55: the body of the loop over the label requirements. -/
def labelRequirementStep (builder : QueryBuilder) (requirement : LabelRequirement) : QueryBuilder :=
  let values := requirement.valuesList
  let queryItem := NewTerms LabelPath values
  match requirement.operator with
  | Operator.Exists | Operator.DoesNotExist | Operator.Equals | Operator.DoubleEquals =>
    builder.addExpression queryItem
  | Operator.NotEquals | Operator.NotIn =>
    builder.addExpression (queryItem.SetLogicType LogicType.MustNot)
  | _ => builder

/-- Lines 44 to 58: the label selector block. -/
def applyLabelSelector (builder : QueryBuilder) (opts : ListOptions) : QueryBuilder :=
  (iterated opts.LabelSelector).foldl labelRequirementStep builder

/-- Lines 66 to 71: the body of the loop over the values of a requirement
with the reserved key. -/
def fuzzyValueStep (operator : Operator) (builder : QueryBuilder) (value : String) : QueryBuilder :=
  let queryItem := NewFuzzy NamePath value
  let queryItem := match operator with
    | Operator.NotEquals | Operator.NotIn => queryItem.SetLogicType LogicType.MustNot
    | _ => queryItem
  builder.addExpression queryItem

/-- Lines 63 to 73: the body of the loop over the extra label requirements. -/
def extraRequirementStep (builder : QueryBuilder) (requirement : LabelRequirement) : QueryBuilder :=
  if requirement.key = ElasticSearchLabelFuzzyName then
    requirement.valuesList.foldl (fuzzyValueStep requirement.operator) builder
  else builder

/-- Lines 60 to 76: the extra label selector block. -/
def applyExtraLabelSelector (builder : QueryBuilder) (opts : ListOptions) : QueryBuilder :=
  (iterated opts.ExtraLabelSelector).foldl extraRequirementStep builder

/-- Lines 86 to 92: the loop over the fields of a requirement, which collects
the names of the fields that are no list and one error for each field that
is. -/
def collectFields (StorageName : String) (acc : List String × List FieldError) (f : Field) :
    List String × List FieldError :=
  if f.isList then
    (acc.1, acc.2 ++ [{ field := f.path, badValue := f.name,
                         detail := "Storage<" ++ StorageName ++ ">: Not Support list field" }])
  else (acc.1 ++ [f.name], acc.2)

/-- The builtin `copy(dst, src)` of Go, which behaves as if the source were
read before the destination is written: the destination after the call. -/
def goCopy {α : Type} (dst src : List α) : List α :=
  src.take dst.length ++ dst.drop src.length

/-- Lines 99 and 100: `fields = append(fields, "")` followed by
`copy(fields[1:], fields[0:])`. -/
def shiftRight (fields : List String) : List String :=
  let fields := fields ++ [""]
  fields.take 1 ++ goCopy (fields.drop 1) fields

/-- Lines 108 to 111 and 118 to 122: one Wildcard expression for each value,
with the given combinator. -/
def wildcardValueStep (path : String) (logic : LogicType) (builder : QueryBuilder)
    (value : String) : QueryBuilder :=
  builder.addExpression ((NewWildcard path value).SetLogicType logic)

/-- Lines 81 to 128: the body of the loop over the requirements of the
enhanced field selector. Reading `fields[0]` of an empty slice panics. -/
def fieldRequirementStep (StorageName : String) (builder : QueryBuilder)
    (requirement : FieldRequirement) : Result :=
  let collected := requirement.fields.foldl (collectFields StorageName) ([], [])
  let fields := collected.1
  let fieldErrors := collected.2
  if fieldErrors.length ≠ 0 then
    Result.err builder
      { group := "clusterpedia.io", kind := "ListOptions", name := "fieldSelector",
        causes := fieldErrors }
  else
    match fields with
    | [] => Result.panicked
    | f0 :: _ =>
      let wsFlag := f0 == "ws"
      let fields := if wsFlag then fields else shiftRight fields
      let fields := fields.set 0 "object"
      let path := ".".intercalate fields
      let values := requirement.valuesList
      match requirement.operator with
      | Operator.Exists | Operator.DoesNotExist | Operator.Equals | Operator.DoubleEquals =>
        if wsFlag then Result.ok (values.foldl (wildcardValueStep path LogicType.Must) builder)
        else Result.ok (builder.addExpression (NewTerms path values))
      | Operator.NotEquals | Operator.NotIn =>
        if wsFlag then Result.ok (values.foldl (wildcardValueStep path LogicType.MustNot) builder)
        else Result.ok (builder.addExpression ((NewTerms path values).SetLogicType LogicType.MustNot))
      | _ => Result.ok builder

/-- Lines 80 to 129: the loop over the requirements of the enhanced field
selector, which stops at the first requirement that returns an error. -/
def fieldLoop (StorageName : String) : List FieldRequirement → QueryBuilder → Result
  | [], builder => Result.ok builder
  | requirement :: rest, builder =>
    match fieldRequirementStep StorageName builder requirement with
    | Result.ok builder => fieldLoop StorageName rest builder
    | Result.err builder e => Result.err builder e
    | Result.panicked => Result.panicked

/-- Lines 208 to 231: the sort entry of one key. -/
def sortQuery (path : String) (desc : Bool) : SortItem :=
  let path :=
    if path = "cluster" then ClusterPath
    else if path = "namespace" then NameSpacePath
    else if path = "name" then NamePath
    else if path = "created_at" then CreationTimestampPath
    else if path = "resource_version" then ResourceVersionPath
    else ".".intercalate [ObjectPath, path]
  if desc then [(path, [("order", "desc")])] else [(path, [("order", "asc")])]

/-- Lines 133 to 147: page size, offset and sort list. -/
def applyPaging (builder : QueryBuilder) (opts : ListOptions) : QueryBuilder :=
  let size : Int := if opts.Limit > 0 then opts.Limit else 500
  let offset := (Atoi opts.Continue).1
  let sort := opts.OrderBy.foldl (fun sort orderby => sort ++ [sortQuery orderby.Field orderby.Desc]) []
  { builder with sort := sort, size := size, from_ := offset }

/-- The function `applyListOptionToQueryBuilder` of util.go, lines 24 to
148. `StorageName` is a constant of the package declared outside util.go. -/
def applyListOptionToQueryBuilder (StorageName : String) (builder : QueryBuilder)
    (opts : ListOptions) : Result :=
  let builder := applyNameSets builder opts
  let builder := applyTimeRange builder opts
  let builder := applyLabelSelector builder opts
  let builder := applyExtraLabelSelector builder opts
  match fieldLoop StorageName (iterated opts.EnhancedFieldSelector) builder with
  | Result.ok builder => Result.ok (applyPaging builder opts)
  | Result.err builder e => Result.err builder e
  | Result.panicked => Result.panicked

/-- The group and version of `schema.GroupVersion`. -/
structure GroupVersion where
  Group : String
  Version : String
  deriving DecidableEq, Repr

/-- The group and resource of `schema.GroupResource`. -/
structure GroupResource where
  Group : String
  Resource : String
  deriving DecidableEq, Repr

/-- The fields of `ResourceStorage` that `genListQuery` reads. -/
structure ResourceStorage where
  storageGroupResource : GroupResource
  storageVersion : GroupVersion
  deriving DecidableEq, Repr

/-- The length `len(x)` of a slice that may be nil. -/
def sliceLen {α : Type} (x : Option (List α)) : Nat :=
  match x with
  | none => 0
  | some l => l.length

/-- Lines 151 to 168 of `genListQuery`: the builder on which `build` is
called, or the way the translation failed. -/
def genListQueryBuilder (StorageName : String) (s : ResourceStorage) (ownerIds : List String)
    (opts : ListOptions) : Result :=
  let builder := NewQueryBuilder
  match applyListOptionToQueryBuilder StorageName builder opts with
  | Result.err builder e => Result.err builder e
  | Result.panicked => Result.panicked
  | Result.ok builder =>
    let builder :=
      if sliceLen opts.ClusterNames = 1 ∧ (opts.OwnerUID.utf8ByteSize ≠ 0 ∨ opts.OwnerName.utf8ByteSize ≠ 0) then
        builder.addExpression (NewTerms OwnerReferencePath ownerIds)
      else builder
    let builder := builder.addExpression (NewTerms GroupPath [s.storageVersion.Group])
    let builder := builder.addExpression (NewTerms VersionPath [s.storageVersion.Version])
    let builder := builder.addExpression (NewTerms ResourcePath [s.storageGroupResource.Resource])
    Result.ok builder

/-- The function `genListQuery` of util.go, lines 150 to 170: the query
document and the error it returns, or `none` when it panics. The method
`build` of the builder is declared outside util.go and is a parameter. -/
def genListQuery {Doc : Type} (build : QueryBuilder → Doc) (StorageName : String)
    (s : ResourceStorage) (ownerIds : List String) (opts : ListOptions) :
    Option (Option Doc × Option StatusError) :=
  match genListQueryBuilder StorageName s ownerIds opts with
  | Result.err _ e => some (none, some e)
  | Result.panicked => none
  | Result.ok builder => some (some (build builder), none)

/-! ## Tables and expression lists used in the statements -/

/-- The operator table of the two switch statements on a requirement's
operator (lines 49 to 55 and 105 to 128): the combinator of the expressions
of a mapped operator, and `none` for an operator without a case. -/
def operatorLogic : Operator → Option LogicType
  | Operator.Exists => some LogicType.Must
  | Operator.DoesNotExist => some LogicType.Must
  | Operator.Equals => some LogicType.Must
  | Operator.DoubleEquals => some LogicType.Must
  | Operator.NotEquals => some LogicType.MustNot
  | Operator.NotIn => some LogicType.MustNot
  | _ => none

/-- The Term expressions the label selector block adds for a list of
requirements. -/
def labelTerms (reqs : List LabelRequirement) : List Expression :=
  reqs.filterMap fun r =>
    (operatorLogic r.operator).map fun l =>
      { path := LabelPath, values := r.valuesList, kind := ExprKind.Term, logic := l }

/-- The combinator the extra label selector block gives to the expressions
of a requirement (lines 67 to 70). -/
def fuzzyLogic : Operator → LogicType
  | Operator.NotEquals => LogicType.MustNot
  | Operator.NotIn => LogicType.MustNot
  | _ => LogicType.Must

/-- The expressions the extra label selector block adds for one
requirement. -/
def fuzzyExprs (r : LabelRequirement) : List Expression :=
  if r.key = ElasticSearchLabelFuzzyName then
    r.valuesList.map fun v =>
      { path := NamePath, values := [v], kind := ExprKind.Fuzzy, logic := fuzzyLogic r.operator }
  else []

/-- The error of one list field (line 88). -/
def listFieldError (StorageName : String) (f : Field) : FieldError :=
  { field := f.path, badValue := f.name,
    detail := "Storage<" ++ StorageName ++ ">: Not Support list field" }

/-- The expressions the enhanced field selector block adds for a requirement
whose fields are no lists, from the names of its fields. -/
def fieldExprs (r : FieldRequirement) : List Expression :=
  match r.fields.map (fun f => f.name), operatorLogic r.operator with
  | f0 :: rest, some l =>
    if f0 = "ws" then
      r.valuesList.map fun v =>
        { path := ".".intercalate ("object" :: rest), values := [v], kind := ExprKind.Wildcard,
          logic := l }
    else
      [{ path := ".".intercalate ("object" :: f0 :: rest), values := r.valuesList,
         kind := ExprKind.Term, logic := l }]
  | _, _ => []

/-- The status error of line 94 for a requirement. -/
def invalidFieldSelector (StorageName : String) (r : FieldRequirement) : StatusError :=
  { group := "clusterpedia.io", kind := "ListOptions", name := "fieldSelector",
    causes := (r.fields.filter fun f => f.isList).map (listFieldError StorageName) }

/-- The Term expressions lines 25 to 36 add: one for each name set that is
not nil, in the order cluster, namespace, name. -/
def nameSetTerms (opts : ListOptions) : List Expression :=
  opts.ClusterNames.toList.map (NewTerms ClusterPath) ++
    opts.Namespaces.toList.map (NewTerms NameSpacePath) ++
    opts.Names.toList.map (NewTerms NamePath)

/-- The Range expression lines 38 to 42 add, if any. -/
def rangeExprs (opts : ListOptions) : List Expression :=
  if opts.Since.isSome || opts.Before.isSome then
    [NewRange CreationTimestampPath opts.Since opts.Before]
  else []

/-- The expressions the blocks before the enhanced field selector add. -/
def headExprs (opts : ListOptions) : List Expression :=
  nameSetTerms opts ++ rangeExprs opts ++ labelTerms (iterated opts.LabelSelector) ++
    (iterated opts.ExtraLabelSelector).flatMap fuzzyExprs

/-- A requirement of the enhanced field selector on which the loop body
returns nil: it has a field and none of its fields is a list. -/
def plainFields (r : FieldRequirement) : Prop :=
  (∀ f ∈ r.fields, f.isList = false) ∧ r.fields ≠ []

/-- The Term expression lines 158 to 161 add, if any. -/
def ownerTerms (opts : ListOptions) (ownerIds : List String) : List Expression :=
  if sliceLen opts.ClusterNames = 1 ∧
      (opts.OwnerUID.utf8ByteSize ≠ 0 ∨ opts.OwnerName.utf8ByteSize ≠ 0) then
    [NewTerms OwnerReferencePath ownerIds]
  else []

/-- The three Term expressions lines 163 to 168 add. -/
def scopeTerms (s : ResourceStorage) : List Expression :=
  [NewTerms GroupPath [s.storageVersion.Group], NewTerms VersionPath [s.storageVersion.Version],
   NewTerms ResourcePath [s.storageGroupResource.Resource]]

/-- An expression is a Required Term expression over the path `P`. -/
def isRequiredTermOver (P : String) (e : Expression) : Bool :=
  decide (e.kind = ExprKind.Term ∧ e.logic = LogicType.Must ∧ e.path = P)

/-! ## Inputs of the examples -/

/-- The zero value of `ListOptions`. -/
def emptyOptions : ListOptions :=
  { ClusterNames := none, Namespaces := none, Names := none, Since := none, Before := none,
    LabelSelector := none, ExtraLabelSelector := none, EnhancedFieldSelector := none,
    Limit := 0, Continue := "", OrderBy := [], OwnerUID := "", OwnerName := "" }

/-- A label selector with the single requirement `env in (a, b)`. -/
def labelInOptions : ListOptions :=
  { emptyOptions with
    LabelSelector := some
      { requirements := [{ key := "env", operator := Operator.In, valuesList := ["a", "b"] }],
        selectable := true } }

/-- A label selector with the requirements `env = a` and `tier != b`. -/
def labelTwoOptions : ListOptions :=
  { emptyOptions with
    LabelSelector := some
      { requirements :=
          [{ key := "env", operator := Operator.Equals, valuesList := ["a"] },
           { key := "tier", operator := Operator.NotEquals, valuesList := ["b"] }],
        selectable := true } }

/-- The builder the translation of `labelTwoOptions` leaves behind. -/
def labelTwoBuilder : QueryBuilder :=
  { size := 500, from_ := 0, sort := [],
    expressions :=
      [{ path := LabelPath, values := ["a"], kind := ExprKind.Term, logic := LogicType.Must },
       { path := LabelPath, values := ["b"], kind := ExprKind.Term,
         logic := LogicType.MustNot }] }

/-- An enhanced field selector with two requirements, the first on the list
field `a` and the second on the list field `b`. -/
def twoListOptions : ListOptions :=
  { emptyOptions with
    EnhancedFieldSelector := some
      { requirements :=
          [{ fields := [{ name := "a", isList := true, path := "spec.a" }],
             operator := Operator.Equals, valuesList := ["x"] },
           { fields := [{ name := "b", isList := true, path := "spec.b" }],
             operator := Operator.Equals, valuesList := ["y"] }],
        selectable := true } }

/-- An enhanced field selector whose only requirement has no field. -/
def noFieldsOptions : ListOptions :=
  { emptyOptions with
    EnhancedFieldSelector := some
      { requirements := [{ fields := [], operator := Operator.Equals, valuesList := ["x"] }],
        selectable := true } }

/-- A storage of the resource `pods` of the core group in version `v1`. -/
def podsStorage : ResourceStorage :=
  { storageGroupResource := { Group := "", Resource := "pods" },
    storageVersion := { Group := "", Version := "v1" } }

/-- An extra label selector with the reserved key, operator Equals and the
value `foo`. -/
def fuzzyFooOptions : ListOptions :=
  { emptyOptions with
    ExtraLabelSelector := some
      { requirements :=
          [{ key := ElasticSearchLabelFuzzyName, operator := Operator.Equals,
             valuesList := ["foo"] }],
        selectable := true } }

/-- The builder the translation of `fuzzyFooOptions` leaves behind. -/
def fuzzyFooBuilder : QueryBuilder :=
  { size := 500, from_ := 0, sort := [],
    expressions :=
      [{ path := NamePath, values := ["foo"], kind := ExprKind.Fuzzy, logic := LogicType.Must }] }

/-- A continuation token one above the largest 64 bit integer. -/
def overflowTokenOptions : ListOptions :=
  { emptyOptions with Continue := "9223372036854775808" }

/-- A request with limit 10 and continuation token `42`. -/
def pageOptions : ListOptions :=
  { emptyOptions with Limit := 10, Continue := "42" }

/-- The namespace set `ns` and nothing else. -/
def namespaceOnlyOptions : ListOptions :=
  { emptyOptions with Namespaces := some ["ns"] }

/-- A cluster name set that is present and has length zero. -/
def emptyClusterSetOptions : ListOptions :=
  { emptyOptions with ClusterNames := some [] }

/-- The three scoping expressions of `podsStorage`. -/
def podsScope : List Expression :=
  [{ path := GroupPath, values := [""], kind := ExprKind.Term, logic := LogicType.Must },
   { path := VersionPath, values := ["v1"], kind := ExprKind.Term, logic := LogicType.Must },
   { path := ResourcePath, values := ["pods"], kind := ExprKind.Term, logic := LogicType.Must }]

/-- The name set `a` together with the field requirement `metadata.name = b`. -/
def nameTwiceOptions : ListOptions :=
  { emptyOptions with
    Names := some ["a"],
    EnhancedFieldSelector := some
      { requirements :=
          [{ fields := [{ name := "metadata", isList := false, path := "metadata" },
                        { name := "name", isList := false, path := "metadata.name" }],
             operator := Operator.Equals, valuesList := ["b"] }],
        selectable := true } }

/-- The builder `genListQuery` hands to `build` for `nameTwiceOptions` on the
storage of pods. -/
def nameTwiceBuilder : QueryBuilder :=
  { size := 500, from_ := 0, sort := [],
    expressions :=
      [{ path := NamePath, values := ["a"], kind := ExprKind.Term, logic := LogicType.Must },
       { path := "object.metadata.name", values := ["b"], kind := ExprKind.Term,
         logic := LogicType.Must }] ++ podsScope }

/-- The name set `a, b` and nothing else. -/
def namesOnlyOptions : ListOptions :=
  { emptyOptions with Names := some ["a", "b"] }

/-- The field requirement `metadata.name = b` of `nameTwiceOptions`. -/
def metadataNameRequirement : FieldRequirement :=
  { fields := [{ name := "metadata", isList := false, path := "metadata" },
               { name := "name", isList := false, path := "metadata.name" }],
    operator := Operator.Equals, valuesList := ["b"] }

/-- An expression is of kind Range, whatever its bounds. -/
def isRange (e : Expression) : Bool :=
  match e.kind with
  | ExprKind.Range _ _ => true
  | _ => false

/-- The field requirement `ws.metadata.name = fo*, ba*`. -/
def wsRequirement : FieldRequirement :=
  { fields := [{ name := "ws", isList := false, path := "ws" },
               { name := "metadata", isList := false, path := "ws.metadata" },
               { name := "name", isList := false, path := "ws.metadata.name" }],
    operator := Operator.NotEquals, valuesList := ["fo*", "ba*"] }

/-- The sort keys `created_at` descending and `custom.x` ascending. -/
def sortOptions : ListOptions :=
  { emptyOptions with
    OrderBy := [{ Field := "created_at", Desc := true }, { Field := "custom.x", Desc := false }] }

/-- The builder the translation of `sortOptions` leaves behind. -/
def sortBuilder : QueryBuilder :=
  { size := 500, from_ := 0,
    sort := [[("object.metadata.creationTimestamp", [("order", "desc")])],
             [("object.custom.x", [("order", "asc")])]],
    expressions := [] }

/-- One cluster name together with an owner UID. -/
def ownerOptions : ListOptions :=
  { emptyOptions with ClusterNames := some ["c1"], OwnerUID := "u-1" }

/-- A lower time bound alone. -/
def sinceOptions : ListOptions :=
  { emptyOptions with Since := some { unix := 100 } }

/-- A label selector with the single requirement `env` (operator Exists),
whose value list is empty. -/
def labelExistsOptions : ListOptions :=
  { emptyOptions with
    LabelSelector := some
      { requirements := [{ key := "env", operator := Operator.Exists, valuesList := [] }],
        selectable := true } }

/-- An extra label selector with the reserved key between two requirements
with other keys. -/
def mixedExtraSelector : Selector LabelRequirement :=
  { requirements :=
      [{ key := "a", operator := Operator.Equals, valuesList := ["1"] },
       { key := "other.io/key", operator := Operator.Equals, valuesList := ["x"] },
       { key := ElasticSearchLabelFuzzyName, operator := Operator.Equals, valuesList := ["foo"] }],
    selectable := true }

/-- The options that carry `mixedExtraSelector`. -/
def mixedExtraOptions : ListOptions :=
  { emptyOptions with ExtraLabelSelector := some mixedExtraSelector }

/-- The field requirement `metadata.name in (b)`, whose operator has no case
in the switch. -/
def metadataNameInRequirement : FieldRequirement :=
  { fields := [{ name := "metadata", isList := false, path := "metadata" },
               { name := "name", isList := false, path := "metadata.name" }],
    operator := Operator.In, valuesList := ["b"] }

/-- The options whose enhanced field selector holds `metadata.name in (b)`
before `metadata.name = b`. -/
def unmappedFieldOptions : ListOptions :=
  { emptyOptions with
    EnhancedFieldSelector := some
      { requirements := [metadataNameInRequirement, metadataNameRequirement],
        selectable := true } }

/-! ## util.go: `simpleMapExtract` -/

/-- A Go value of type `interface{}` as far as `simpleMapExtract` can tell
values apart: nil, a `map[string]interface{}` (an association list, read
through `mapIndex`), or a value of any other type. -/
inductive Value where
  | nil
  | other (text : String)
  | object (entries : List (String × Value))

/-- The index expression `mapObj[field]`, which is nil for a missing key. -/
def mapIndex : List (String × Value) → String → Value
  | [], _ => Value.nil
  | (k, v) :: rest, field => if k = field then v else mapIndex rest field

/-- The pieces of a string between its dots; there is always at least one
piece. -/
def splitDot : List Char → List (List Char)
  | [] => [[]]
  | c :: cs =>
    if c = '.' then [] :: splitDot cs
    else
      match splitDot cs with
      | [] => [[c]]
      | piece :: pieces => (c :: piece) :: pieces

/-- The call `strings.Split(path, ".")`. -/
def Split (path : String) : List String :=
  (splitDot path.toList).map String.mk

/-- Lines 197 to 205: the loop over the fields, which returns nil as soon as
the current value is no map. -/
def extractLoop : List String → Value → Value
  | [], cur => cur
  | field :: rest, cur =>
    match cur with
    | Value.object mapObj => extractLoop rest (mapIndex mapObj field)
    | _ => Value.nil

/-- The function `simpleMapExtract` of util.go, lines 193 to 206. -/
def simpleMapExtract (path : String) (object : List (String × Value)) : Value :=
  extractLoop (Split path) (Value.object object)

/-! ## util.go: `ensureIndex` -/

/-- The flags of a formatting directive, which `doPrintf` skips first. -/
def dropFlags : List Char → List Char
  | [] => []
  | c :: cs =>
    if c = '#' ∨ c = '0' ∨ c = '+' ∨ c = '-' ∨ c = ' ' then dropFlags cs else c :: cs

/-- The loop of `parsenum` in package fmt on a slice of the format: whether
a number was read, and what is left of the slice. A number above a million
ends the parse at the end of the slice. -/
def parsenumLoop : List Char → Nat → Bool → Bool × List Char
  | [], _, isnum => (isnum, [])
  | c :: cs, num, isnum =>
    if isDigit c then
      if num > 1000000 then (false, [])
      else parsenumLoop cs (num * 10 + (c.toNat - 48)) true
    else (isnum, c :: cs)

/-- The function `parseArgNumber` of package fmt on a format that starts at
an opening bracket: how many characters the index takes, and whether it is
well formed. -/
def parseArgNumber (format : List Char) : Nat × Bool :=
  if format.length < 3 then (1, false)
  else
    let inner := (format.drop 1).takeWhile (fun c => c ≠ ']')
    if inner.length + 1 < format.length then
      let r := parsenumLoop inner 0 false
      if !r.1 || r.2 ≠ [] then (inner.length + 2, false) else (inner.length + 2, true)
    else (1, false)

/-- The method `argNumber` of package fmt when there is no operand: the
format after an argument index, whether an index was found, and whether the
argument number is still good. Without operands no index is in range. -/
def argNumber (format : List Char) (good : Bool) : List Char × Bool × Bool :=
  match format with
  | '[' :: _ =>
    let r := parseArgNumber format
    (format.drop r.1, r.2, false)
  | _ => (format, false, good)

/-- What `doPrintf` writes for one directive when there is no operand, from
the format after the percent sign, and the format left after the
directive. A dot starts a precision only when a character follows it; a dot
that ends the format is read as the verb. -/
def directive (format : List Char) : List Char × List Char :=
  let s := dropFlags format
  let a := argNumber s true
  let w : List Char × List Char × Bool × Bool :=
    match a.1 with
    | '*' :: cs => ("%!(BADWIDTH)".toList, cs, false, a.2.2)
    | s1 =>
      let r := parsenumLoop s1 0 false
      ([], r.2, a.2.1, a.2.2 && !(a.2.1 && r.1))
  let p : List Char × List Char × Bool × Bool :=
    match w.2.1 with
    | '.' :: c :: cs =>
      let good := w.2.2.2 && !w.2.2.1
      let a2 := argNumber (c :: cs) good
      match a2.1 with
      | '*' :: cs2 => ("%!(BADPREC)".toList, cs2, false, a2.2.2)
      | s2 => ([], (parsenumLoop s2 0 false).2, a2.2.1, a2.2.2)
    | s1 => ([], s1, w.2.2.1, w.2.2.2)
  let a3 := if !p.2.2.1 then argNumber p.2.1 p.2.2.2 else (p.2.1, true, p.2.2.2)
  match a3.1 with
  | [] => (w.1 ++ p.1 ++ "%!(NOVERB)".toList, [])
  | verb :: rest =>
    if verb = '%' then (w.1 ++ p.1 ++ ['%'], rest)
    else if !a3.2.2 then (w.1 ++ p.1 ++ "%!".toList ++ [verb] ++ "(BADINDEX)".toList, rest)
    else (w.1 ++ p.1 ++ "%!".toList ++ [verb] ++ "(MISSING)".toList, rest)

/-- The text `doPrintf` writes for a format without operands; `skip` counts
the characters of the format that the last directive has taken already. -/
def printfLoop : List Char → Nat → List Char
  | [], _ => []
  | _ :: cs, skip + 1 => printfLoop cs skip
  | c :: cs, 0 =>
    if c = '%' then
      let d := directive cs
      d.1 ++ printfLoop cs (cs.length - d.2.length)
    else c :: printfLoop cs 0

/-- The message of the error `fmt.Errorf(format)` builds when it is called
without operands. -/
def Errorf (format : String) : String :=
  String.mk (printfLoop format.toList 0)

/-- The call `strings.Contains(s, substr)`. -/
def Contains : List Char → List Char → Bool
  | [], substr => substr.isEmpty
  | c :: cs, substr => substr.isPrefixOf (c :: cs) || Contains cs substr

/-- What `ensureIndex` reads of an `esapi.Response`: `IsError()` and
`String()`. -/
structure Response where
  IsError : Bool
  text : String
  deriving DecidableEq, Repr

/-- How the index create request `req.Do` ends: with a transport error or
with a response. -/
inductive DoResult where
  | failed (err : String)
  | responded (resp : Response)
  deriving DecidableEq, Repr

/-- The non-nil errors `ensureIndex` returns: the transport error itself, or
a new error with a message. -/
inductive IndexError where
  | transport (err : String)
  | message (msg : String)
  deriving DecidableEq, Repr

/-- The function `ensureIndex` of util.go, lines 172 to 191; the client is
the function that performs the request for an index name and a mapping, and
`none` is the nil error. -/
def ensureIndex (client : String → String → DoResult) (mapping : String) (indexName : String) :
    Option IndexError :=
  match client indexName mapping with
  | DoResult.failed err => some (IndexError.transport err)
  | DoResult.responded resp =>
    if resp.IsError then
      let msg := resp.text
      if Contains resp.text.toList "resource_already_exists_exception".toList then none
      else some (IndexError.message (Errorf msg))
    else none
/-! ## Inputs of the examples for `simpleMapExtract` and `ensureIndex` -/

/-- The object with the name `pod-1` under `metadata` and a kind. -/
def podObject : List (String × Value) :=
  [("kind", Value.other "Pod"), ("metadata", Value.object [("name", Value.other "pod-1")])]

/-- A client whose request is answered with an error response with the given
text. -/
def errorClient (t : String) : String → String → DoResult :=
  fun _ _ => DoResult.responded { IsError := true, text := t }

/-! ## Lemmas on the loops -/

@[simp] theorem addExpression_expressions (b : QueryBuilder) (e : Expression) :
    (b.addExpression e).expressions = b.expressions ++ [e] := rfl

theorem labelRequirementStep_eq (b : QueryBuilder) (r : LabelRequirement) :
    labelRequirementStep b r = { b with expressions := b.expressions ++ labelTerms [r] } := by
  rcases r with ⟨k, op, vs⟩
  cases op <;>
    simp [labelRequirementStep, labelTerms, operatorLogic, QueryBuilder.addExpression, NewTerms,
      Expression.SetLogicType]

theorem labelTerms_cons (r : LabelRequirement) (rs : List LabelRequirement) :
    labelTerms (r :: rs) = labelTerms [r] ++ labelTerms rs := by
  simp only [labelTerms]
  rw [← List.filterMap_append]
  rfl

theorem label_foldl_eq (reqs : List LabelRequirement) (b : QueryBuilder) :
    reqs.foldl labelRequirementStep b = { b with expressions := b.expressions ++ labelTerms reqs } := by
  induction reqs generalizing b with
  | nil => simp [labelTerms]
  | cons r rs ih =>
    rw [List.foldl_cons, ih, labelRequirementStep_eq, labelTerms_cons r rs]
    simp [List.append_assoc]

theorem fuzzy_foldl_eq (op : Operator) (vs : List String) (b : QueryBuilder) :
    vs.foldl (fuzzyValueStep op) b =
      { b with expressions := b.expressions ++ vs.map fun v =>
          { path := NamePath, values := [v], kind := ExprKind.Fuzzy, logic := fuzzyLogic op } } := by
  induction vs generalizing b with
  | nil => simp
  | cons v vs ih =>
    rw [List.foldl_cons, ih]
    cases op <;>
      simp [fuzzyValueStep, fuzzyLogic, QueryBuilder.addExpression, NewFuzzy,
        Expression.SetLogicType]

theorem extraRequirementStep_eq (b : QueryBuilder) (r : LabelRequirement) :
    extraRequirementStep b r = { b with expressions := b.expressions ++ fuzzyExprs r } := by
  unfold extraRequirementStep fuzzyExprs
  split
  · rw [fuzzy_foldl_eq]
  · simp

theorem extra_foldl_eq (reqs : List LabelRequirement) (b : QueryBuilder) :
    reqs.foldl extraRequirementStep b =
      { b with expressions := b.expressions ++ reqs.flatMap fuzzyExprs } := by
  induction reqs generalizing b with
  | nil => simp
  | cons r rs ih =>
    rw [List.foldl_cons, ih, extraRequirementStep_eq]
    simp [List.append_assoc]

theorem wildcard_foldl_eq (path : String) (l : LogicType) (vs : List String) (b : QueryBuilder) :
    vs.foldl (wildcardValueStep path l) b =
      { b with expressions := b.expressions ++ vs.map fun v =>
          { path := path, values := [v], kind := ExprKind.Wildcard, logic := l } } := by
  induction vs generalizing b with
  | nil => simp
  | cons v vs ih =>
    rw [List.foldl_cons, ih]
    simp [wildcardValueStep, QueryBuilder.addExpression, NewWildcard, Expression.SetLogicType]

theorem collect_foldl_eq (SN : String) (fs : List Field) (acc : List String × List FieldError) :
    fs.foldl (collectFields SN) acc =
      (acc.1 ++ (fs.filter fun f => !f.isList).map (fun f => f.name),
       acc.2 ++ (fs.filter fun f => f.isList).map (listFieldError SN)) := by
  induction fs generalizing acc with
  | nil => simp
  | cons f fs ih =>
    rw [List.foldl_cons, ih]
    cases hf : f.isList <;> simp [collectFields, listFieldError, hf]

theorem shiftRight_cons (f0 : String) (rest : List String) :
    shiftRight (f0 :: rest) = f0 :: f0 :: rest := by
  simp [shiftRight, goCopy, List.take_append_eq_append_take]

theorem filter_isList_eq_nil {fs : List Field} (h : ∀ f ∈ fs, f.isList = false) :
    fs.filter (fun f => f.isList) = [] := by
  rw [List.filter_eq_nil_iff]
  intro f hf
  simp [h f hf]

theorem filter_not_isList_eq_self {fs : List Field} (h : ∀ f ∈ fs, f.isList = false) :
    fs.filter (fun f => !f.isList) = fs := by
  rw [List.filter_eq_self]
  intro f hf
  simp [h f hf]

theorem fieldRequirementStep_list (SN : String) (b : QueryBuilder) (r : FieldRequirement)
    (h : ∃ f ∈ r.fields, f.isList = true) :
    fieldRequirementStep SN b r = Result.err b (invalidFieldSelector SN r) := by
  obtain ⟨f, hf, hl⟩ := h
  have hne : (r.fields.filter fun f => f.isList) ≠ [] := by
    intro h0
    rw [List.filter_eq_nil_iff] at h0
    exact h0 f hf hl
  have hlen : ((r.fields.filter fun f => f.isList).map (listFieldError SN)).length ≠ 0 := by
    rw [List.length_map]
    exact fun h0 => hne (List.length_eq_zero.mp h0)
  unfold fieldRequirementStep
  simp only [collect_foldl_eq, List.nil_append]
  rw [if_pos hlen]
  rfl

theorem fieldRequirementStep_empty (SN : String) (b : QueryBuilder) (r : FieldRequirement)
    (h : r.fields = []) : fieldRequirementStep SN b r = Result.panicked := by
  unfold fieldRequirementStep
  simp [collect_foldl_eq, h]

theorem fieldRequirementStep_ok (SN : String) (b : QueryBuilder) (r : FieldRequirement)
    (hnl : ∀ f ∈ r.fields, f.isList = false) (hne : r.fields ≠ []) :
    fieldRequirementStep SN b r =
      Result.ok { b with expressions := b.expressions ++ fieldExprs r } := by
  unfold fieldRequirementStep
  simp only [collect_foldl_eq, List.nil_append, filter_isList_eq_nil hnl,
    filter_not_isList_eq_self hnl, List.map_nil, List.length_nil, ne_eq, not_true_eq_false,
    if_false]
  rcases r with ⟨fs, op, vs⟩
  cases fs with
  | nil => exact absurd rfl hne
  | cons f0 rest =>
    simp only [List.map_cons, fieldExprs]
    by_cases hws : f0.name = "ws"
    · cases op <;>
        simp [hws, operatorLogic, wildcard_foldl_eq, QueryBuilder.addExpression, NewTerms,
          Expression.SetLogicType]
    · cases op <;>
        simp [hws, operatorLogic, shiftRight_cons, QueryBuilder.addExpression, NewTerms,
          Expression.SetLogicType]

theorem fieldLoop_ok (SN : String) (rs : List FieldRequirement) (b : QueryBuilder)
    (h : ∀ r ∈ rs, (∀ f ∈ r.fields, f.isList = false) ∧ r.fields ≠ []) :
    fieldLoop SN rs b = Result.ok { b with expressions := b.expressions ++ rs.flatMap fieldExprs } := by
  induction rs generalizing b with
  | nil => simp [fieldLoop]
  | cons r rs ih =>
    have hr := h r (List.mem_cons_self r rs)
    rw [fieldLoop, fieldRequirementStep_ok SN b r hr.1 hr.2]
    simp only
    rw [ih _ (fun x hx => h x (List.mem_cons_of_mem r hx))]
    simp [List.append_assoc]

theorem fieldLoop_append_bad (SN : String) (good : List FieldRequirement) (bad : FieldRequirement)
    (rest : List FieldRequirement) (b : QueryBuilder)
    (h : ∀ r ∈ good, (∀ f ∈ r.fields, f.isList = false) ∧ r.fields ≠ []) :
    fieldLoop SN (good ++ bad :: rest) b =
      match fieldRequirementStep SN
          { b with expressions := b.expressions ++ good.flatMap fieldExprs } bad with
      | Result.ok b1 => fieldLoop SN rest b1
      | Result.err b1 e => Result.err b1 e
      | Result.panicked => Result.panicked := by
  induction good generalizing b with
  | nil => simp [fieldLoop]
  | cons r rs ih =>
    have hr := h r (List.mem_cons_self r rs)
    rw [List.cons_append, fieldLoop, fieldRequirementStep_ok SN b r hr.1 hr.2]
    simp only
    rw [ih _ (fun x hx => h x (List.mem_cons_of_mem r hx))]
    simp [List.append_assoc]

/-! ## Lemmas on the blocks of `applyListOptionToQueryBuilder` -/

theorem applyNameSets_eq (b : QueryBuilder) (opts : ListOptions) :
    applyNameSets b opts = { b with expressions := b.expressions ++ nameSetTerms opts } := by
  rcases opts with ⟨c, n, m, _, _, _, _, _, _, _, _, _, _⟩
  cases c <;> cases n <;> cases m <;>
    simp [applyNameSets, nameSetTerms, QueryBuilder.addExpression]

theorem applyTimeRange_eq (b : QueryBuilder) (opts : ListOptions) :
    applyTimeRange b opts = { b with expressions := b.expressions ++ rangeExprs opts } := by
  unfold applyTimeRange rangeExprs
  split <;> simp [QueryBuilder.addExpression]

theorem applyLabelSelector_eq (b : QueryBuilder) (opts : ListOptions) :
    applyLabelSelector b opts =
      { b with expressions := b.expressions ++ labelTerms (iterated opts.LabelSelector) } :=
  label_foldl_eq _ b

theorem applyExtraLabelSelector_eq (b : QueryBuilder) (opts : ListOptions) :
    applyExtraLabelSelector b opts =
      { b with expressions :=
          b.expressions ++ (iterated opts.ExtraLabelSelector).flatMap fuzzyExprs } :=
  extra_foldl_eq _ b

theorem apply_eq_fieldLoop (SN : String) (b : QueryBuilder) (opts : ListOptions) :
    applyListOptionToQueryBuilder SN b opts =
      match fieldLoop SN (iterated opts.EnhancedFieldSelector)
          { b with expressions := b.expressions ++ headExprs opts } with
      | Result.ok b1 => Result.ok (applyPaging b1 opts)
      | Result.err b1 e => Result.err b1 e
      | Result.panicked => Result.panicked := by
  unfold applyListOptionToQueryBuilder
  simp only [applyNameSets_eq, applyTimeRange_eq, applyLabelSelector_eq,
    applyExtraLabelSelector_eq, headExprs, List.append_assoc]

theorem fieldRequirementStep_cases (SN : String) (b : QueryBuilder) (r : FieldRequirement) :
    (plainFields r ∧
        fieldRequirementStep SN b r =
          Result.ok { b with expressions := b.expressions ++ fieldExprs r }) ∨
      ((∃ f ∈ r.fields, f.isList = true) ∧
        fieldRequirementStep SN b r = Result.err b (invalidFieldSelector SN r)) ∨
      (r.fields = [] ∧ fieldRequirementStep SN b r = Result.panicked) := by
  by_cases hl : ∃ f ∈ r.fields, f.isList = true
  · exact Or.inr (Or.inl ⟨hl, fieldRequirementStep_list SN b r hl⟩)
  · by_cases he : r.fields = []
    · exact Or.inr (Or.inr ⟨he, fieldRequirementStep_empty SN b r he⟩)
    · have hnl : ∀ f ∈ r.fields, f.isList = false := by
        intro f hf
        cases h : f.isList
        · rfl
        · exact absurd ⟨f, hf, h⟩ hl
      exact Or.inl ⟨⟨hnl, he⟩, fieldRequirementStep_ok SN b r hnl he⟩

theorem fieldLoop_ok_imp (SN : String) (rs : List FieldRequirement) (b b1 : QueryBuilder)
    (h : fieldLoop SN rs b = Result.ok b1) :
    (∀ r ∈ rs, plainFields r) ∧
      b1 = { b with expressions := b.expressions ++ rs.flatMap fieldExprs } := by
  induction rs generalizing b with
  | nil =>
    simp only [fieldLoop, Result.ok.injEq] at h
    subst h
    simp
  | cons r rs ih =>
    rw [fieldLoop] at h
    rcases fieldRequirementStep_cases SN b r with ⟨hp, hs⟩ | ⟨_, hs⟩ | ⟨_, hs⟩
    · rw [hs] at h
      simp only at h
      obtain ⟨hall, hb⟩ := ih _ h
      refine ⟨?_, ?_⟩
      · intro x hx
        rcases List.mem_cons.mp hx with rfl | hx
        · exact hp
        · exact hall x hx
      · rw [hb]
        simp [List.append_assoc]
    · rw [hs] at h
      simp at h
    · rw [hs] at h
      simp at h

theorem fieldLoop_err_imp (SN : String) (rs : List FieldRequirement) (b b1 : QueryBuilder)
    (e : StatusError) (h : fieldLoop SN rs b = Result.err b1 e) :
    ∃ good bad rest,
      rs = good ++ bad :: rest ∧
      (∀ r ∈ good, plainFields r) ∧
      (∃ f ∈ bad.fields, f.isList = true) ∧
      b1 = { b with expressions := b.expressions ++ good.flatMap fieldExprs } ∧
      e = invalidFieldSelector SN bad := by
  induction rs generalizing b with
  | nil => simp [fieldLoop] at h
  | cons r rs ih =>
    rw [fieldLoop] at h
    rcases fieldRequirementStep_cases SN b r with ⟨hp, hs⟩ | ⟨hl, hs⟩ | ⟨_, hs⟩
    · rw [hs] at h
      simp only at h
      obtain ⟨good, bad, rest, hsplit, hg, hb, hb1, he⟩ := ih _ h
      refine ⟨r :: good, bad, rest, by rw [hsplit]; rfl, ?_, hb, ?_, he⟩
      · intro x hx
        rcases List.mem_cons.mp hx with rfl | hx
        · exact hp
        · exact hg x hx
      · rw [hb1]
        simp [List.append_assoc]
    · rw [hs] at h
      simp only [Result.err.injEq] at h
      exact ⟨[], r, rs, rfl, by simp, hl, by simp [h.1], h.2.symm⟩
    · rw [hs] at h
      simp at h

theorem fieldLoop_nonempty (SN : String) (rs : List FieldRequirement) (b : QueryBuilder)
    (hne : ∀ r ∈ rs, r.fields ≠ []) :
    ((∃ r ∈ rs, ∃ f ∈ r.fields, f.isList = true) ∧ ∃ b1 e, fieldLoop SN rs b = Result.err b1 e) ∨
      ((¬ ∃ r ∈ rs, ∃ f ∈ r.fields, f.isList = true) ∧
        fieldLoop SN rs b =
          Result.ok { b with expressions := b.expressions ++ rs.flatMap fieldExprs }) := by
  by_cases hl : ∃ r ∈ rs, ∃ f ∈ r.fields, f.isList = true
  · left
    refine ⟨hl, ?_⟩
    induction rs generalizing b with
    | nil => simp at hl
    | cons r rs ih =>
      rw [fieldLoop]
      rcases fieldRequirementStep_cases SN b r with ⟨hp, hs⟩ | ⟨_, hs⟩ | ⟨he, _⟩
      · rw [hs]
        simp only
        apply ih _ (fun x hx => hne x (List.mem_cons_of_mem r hx))
        obtain ⟨x, hx, f, hf, hfl⟩ := hl
        rcases List.mem_cons.mp hx with rfl | hx
        · rw [hp.1 f hf] at hfl
          exact absurd hfl (by simp)
        · exact ⟨x, hx, f, hf, hfl⟩
      · rw [hs]
        exact ⟨_, _, rfl⟩
      · exact absurd he (hne r (List.mem_cons_self r rs))
  · right
    refine ⟨hl, fieldLoop_ok SN rs b ?_⟩
    intro r hr
    refine ⟨?_, hne r hr⟩
    intro f hf
    cases h : f.isList
    · rfl
    · exact absurd ⟨r, hr, f, hf, h⟩ hl

theorem fuzzyLogic_eq (op : Operator) :
    fuzzyLogic op =
      if op = Operator.NotEquals ∨ op = Operator.NotIn then LogicType.MustNot
      else LogicType.Must := by
  cases op <;> simp [fuzzyLogic]

theorem apply_ok_imp (SN : String) (b b1 : QueryBuilder) (opts : ListOptions)
    (h : applyListOptionToQueryBuilder SN b opts = Result.ok b1) :
    (∀ r ∈ iterated opts.EnhancedFieldSelector, plainFields r) ∧
      b1 = applyPaging
        { b with expressions :=
            b.expressions ++ headExprs opts ++
              (iterated opts.EnhancedFieldSelector).flatMap fieldExprs } opts := by
  rw [apply_eq_fieldLoop] at h
  cases hl : fieldLoop SN (iterated opts.EnhancedFieldSelector)
      { b with expressions := b.expressions ++ headExprs opts } with
  | ok b2 =>
    rw [hl] at h
    simp only [Result.ok.injEq] at h
    obtain ⟨hall, hb⟩ := fieldLoop_ok_imp SN _ _ _ hl
    exact ⟨hall, by rw [← h, hb]⟩
  | err b2 e => rw [hl] at h; simp at h
  | panicked => rw [hl] at h; simp at h

theorem apply_ok_of_plain (SN : String) (b : QueryBuilder) (opts : ListOptions)
    (h : ∀ r ∈ iterated opts.EnhancedFieldSelector, plainFields r) :
    applyListOptionToQueryBuilder SN b opts =
      Result.ok (applyPaging
        { b with expressions :=
            b.expressions ++ headExprs opts ++
              (iterated opts.EnhancedFieldSelector).flatMap fieldExprs } opts) := by
  rw [apply_eq_fieldLoop, fieldLoop_ok SN _ _ h]

@[simp] theorem applyPaging_expressions (b : QueryBuilder) (opts : ListOptions) :
    (applyPaging b opts).expressions = b.expressions := rfl

theorem genListQueryBuilder_ok (SN : String) (s : ResourceStorage) (ownerIds : List String)
    (opts : ListOptions) (b1 : QueryBuilder)
    (h : applyListOptionToQueryBuilder SN NewQueryBuilder opts = Result.ok b1) :
    genListQueryBuilder SN s ownerIds opts =
      Result.ok { b1 with expressions :=
        b1.expressions ++ ownerTerms opts ownerIds ++ scopeTerms s } := by
  simp only [genListQueryBuilder, h, ownerTerms, scopeTerms]
  split <;> simp [QueryBuilder.addExpression]

theorem genListQueryBuilder_err (SN : String) (s : ResourceStorage) (ownerIds : List String)
    (opts : ListOptions) (b1 : QueryBuilder) (e : StatusError)
    (h : applyListOptionToQueryBuilder SN NewQueryBuilder opts = Result.err b1 e) :
    genListQueryBuilder SN s ownerIds opts = Result.err b1 e := by
  simp only [genListQueryBuilder, h]


theorem intercalate_go_append (p acc sep : String) (l : List String) :
    String.intercalate.go (p ++ acc) sep l = p ++ String.intercalate.go acc sep l := by
  induction l generalizing acc with
  | nil => simp [String.intercalate.go]
  | cons x xs ih =>
    simp only [String.intercalate.go]
    rw [← ih]
    simp [String.append_assoc]

theorem intercalate_object (f0 : String) (rest : List String) :
    ".".intercalate ("object" :: f0 :: rest) = "object." ++ ".".intercalate (f0 :: rest) := by
  simp only [String.intercalate, String.intercalate.go]
  rw [← intercalate_go_append]
  rfl

theorem operatorLogic_table (op : Operator) :
    (operatorLogic op = some LogicType.Must ↔
        op = Operator.Exists ∨ op = Operator.DoesNotExist ∨ op = Operator.Equals ∨
          op = Operator.DoubleEquals) ∧
      (operatorLogic op = some LogicType.MustNot ↔
        op = Operator.NotEquals ∨ op = Operator.NotIn) ∧
      (operatorLogic op = none ↔
        op = Operator.In ∨ op = Operator.GreaterThan ∨ op = Operator.LessThan) := by
  cases op <;> simp [operatorLogic]

theorem fieldExprs_plain (r : FieldRequirement) (l : LogicType) (hne : r.fields ≠ [])
    (hws : (r.fields.map fun f => f.name).head? ≠ some "ws")
    (hop : operatorLogic r.operator = some l) :
    fieldExprs r =
      [{ path := "object." ++ ".".intercalate (r.fields.map fun f => f.name),
         values := r.valuesList, kind := ExprKind.Term, logic := l }] := by
  rcases r with ⟨fs, op, vs⟩
  cases fs with
  | nil => exact absurd rfl hne
  | cons f0 rest =>
    simp only [List.map_cons, List.head?_cons, ne_eq, Option.some.injEq] at hws
    simp only at hop
    simp only [fieldExprs, List.map_cons, hop, if_neg hws, intercalate_object]


theorem filter_rangeExprs (P : String) (opts : ListOptions) :
    (rangeExprs opts).filter (isRequiredTermOver P) = [] := by
  rw [List.filter_eq_nil_iff]
  intro e he
  unfold rangeExprs at he
  split at he
  · rw [List.mem_singleton] at he
    subst he
    simp [isRequiredTermOver, NewRange]
  · simp at he

theorem filter_labelTerms (P : String) (hP : P ≠ LabelPath) (reqs : List LabelRequirement) :
    (labelTerms reqs).filter (isRequiredTermOver P) = [] := by
  rw [List.filter_eq_nil_iff]
  intro e he
  simp only [labelTerms, List.mem_filterMap, Option.map_eq_some'] at he
  obtain ⟨r, _, l, _, rfl⟩ := he
  simp [isRequiredTermOver, Ne.symm hP]

theorem filter_fuzzyExprs (P : String) (reqs : List LabelRequirement) :
    (reqs.flatMap fuzzyExprs).filter (isRequiredTermOver P) = [] := by
  rw [List.filter_eq_nil_iff]
  intro e he
  simp only [List.mem_flatMap] at he
  obtain ⟨r, _, her⟩ := he
  unfold fuzzyExprs at her
  split at her
  · simp only [List.mem_map] at her
    obtain ⟨v, _, rfl⟩ := her
    simp [isRequiredTermOver]
  · simp at her

theorem filter_fieldExprs (P : String) (reqs : List FieldRequirement)
    (h : ∀ r ∈ reqs, ∀ e ∈ fieldExprs r, isRequiredTermOver P e = false) :
    (reqs.flatMap fieldExprs).filter (isRequiredTermOver P) = [] := by
  rw [List.filter_eq_nil_iff]
  intro e he
  simp only [List.mem_flatMap] at he
  obtain ⟨r, hr, her⟩ := he
  simp [h r hr e her]

theorem filter_ownerTerms (P : String) (hP : P ≠ OwnerReferencePath) (opts : ListOptions)
    (ownerIds : List String) :
    (ownerTerms opts ownerIds).filter (isRequiredTermOver P) = [] := by
  rw [List.filter_eq_nil_iff]
  intro e he
  unfold ownerTerms at he
  split at he
  · rw [List.mem_singleton] at he
    subst he
    simp [isRequiredTermOver, NewTerms, Ne.symm hP]
  · simp at he

theorem filter_scopeTerms (P : String) (hg : P ≠ GroupPath) (hv : P ≠ VersionPath)
    (hr : P ≠ ResourcePath) (s : ResourceStorage) :
    (scopeTerms s).filter (isRequiredTermOver P) = [] := by
  simp [scopeTerms, isRequiredTermOver, NewTerms, Ne.symm hg, Ne.symm hv, Ne.symm hr]

theorem genListQueryBuilder_ok_imp (SN : String) (s : ResourceStorage) (ownerIds : List String)
    (opts : ListOptions) (b1 : QueryBuilder)
    (h : genListQueryBuilder SN s ownerIds opts = Result.ok b1) :
    b1.expressions =
      nameSetTerms opts ++ (rangeExprs opts ++ (labelTerms (iterated opts.LabelSelector) ++
        ((iterated opts.ExtraLabelSelector).flatMap fuzzyExprs ++
          ((iterated opts.EnhancedFieldSelector).flatMap fieldExprs ++
            (ownerTerms opts ownerIds ++ scopeTerms s))))) := by
  cases ha : applyListOptionToQueryBuilder SN NewQueryBuilder opts with
  | err b2 e => rw [genListQueryBuilder_err SN s ownerIds opts b2 e ha] at h; simp at h
  | panicked => simp [genListQueryBuilder, ha] at h
  | ok b2 =>
    rw [genListQueryBuilder_ok SN s ownerIds opts b2 ha] at h
    simp only [Result.ok.injEq] at h
    rw [← h, (apply_ok_imp SN _ b2 opts ha).2]
    simp [headExprs, NewQueryBuilder, List.append_assoc]

theorem filter_tail_nil (P : String) (hl : P ≠ LabelPath) (ho : P ≠ OwnerReferencePath)
    (hg : P ≠ GroupPath) (hv : P ≠ VersionPath) (hr : P ≠ ResourcePath) (opts : ListOptions)
    (s : ResourceStorage) (ownerIds : List String)
    (h : ∀ r ∈ iterated opts.EnhancedFieldSelector, ∀ e ∈ fieldExprs r,
      isRequiredTermOver P e = false) :
    (rangeExprs opts ++ (labelTerms (iterated opts.LabelSelector) ++
        ((iterated opts.ExtraLabelSelector).flatMap fuzzyExprs ++
          ((iterated opts.EnhancedFieldSelector).flatMap fieldExprs ++
            (ownerTerms opts ownerIds ++ scopeTerms s))))).filter (isRequiredTermOver P) = [] := by
  simp only [List.filter_append, filter_rangeExprs, filter_labelTerms P hl, filter_fuzzyExprs,
    filter_fieldExprs P _ h, filter_ownerTerms P ho, filter_scopeTerms P hg hv hr,
    List.append_nil]

theorem filter_nameSetTerms_cluster (opts : ListOptions) (names : List String)
    (h : opts.ClusterNames = some names) :
    (nameSetTerms opts).filter (isRequiredTermOver ClusterPath) = [NewTerms ClusterPath names] := by
  rcases opts with ⟨c, n, m, _, _, _, _, _, _, _, _, _, _⟩
  simp only at h
  subst h
  have h1 : ¬ NameSpacePath = ClusterPath := by decide
  have h2 : ¬ NamePath = ClusterPath := by decide
  cases n <;> cases m <;>
    simp [nameSetTerms, isRequiredTermOver, NewTerms, List.filter_cons, h1, h2]

theorem filter_nameSetTerms_namespace (opts : ListOptions) (names : List String)
    (h : opts.Namespaces = some names) :
    (nameSetTerms opts).filter (isRequiredTermOver NameSpacePath) =
      [NewTerms NameSpacePath names] := by
  rcases opts with ⟨c, n, m, _, _, _, _, _, _, _, _, _, _⟩
  simp only at h
  subst h
  have h1 : ¬ ClusterPath = NameSpacePath := by decide
  have h2 : ¬ NamePath = NameSpacePath := by decide
  cases c <;> cases m <;>
    simp [nameSetTerms, isRequiredTermOver, NewTerms, List.filter_cons, h1, h2]

theorem filter_nameSetTerms_name (opts : ListOptions) (names : List String)
    (h : opts.Names = some names) :
    (nameSetTerms opts).filter (isRequiredTermOver NamePath) = [NewTerms NamePath names] := by
  rcases opts with ⟨c, n, m, _, _, _, _, _, _, _, _, _, _⟩
  simp only at h
  subst h
  have h1 : ¬ ClusterPath = NamePath := by decide
  have h2 : ¬ NameSpacePath = NamePath := by decide
  cases c <;> cases n <;>
    simp [nameSetTerms, isRequiredTermOver, NewTerms, List.filter_cons, h1, h2]

theorem fieldExprs_ws (r : FieldRequirement) (l : LogicType) (rest : List String)
    (hfields : (r.fields.map fun f => f.name) = "ws" :: rest)
    (hop : operatorLogic r.operator = some l) :
    fieldExprs r =
      r.valuesList.map fun v =>
        { path := ".".intercalate ("object" :: rest), values := [v], kind := ExprKind.Wildcard,
          logic := l } := by
  simp only [fieldExprs, hfields, hop, if_true]

theorem sort_foldl_eq (os : List OrderBy) (acc : List SortItem) :
    os.foldl (fun sort orderby => sort ++ [sortQuery orderby.Field orderby.Desc]) acc =
      acc ++ os.map fun o => sortQuery o.Field o.Desc := by
  induction os generalizing acc with
  | nil => simp
  | cons o os ih =>
    rw [List.foldl_cons, ih]
    simp [List.append_assoc]

theorem intercalate_object_key (k : String) :
    ".".intercalate [ObjectPath, k] = "object." ++ k := by
  simp only [String.intercalate, String.intercalate.go, ObjectPath]
  rw [String.append_assoc]
  rfl

theorem filter_isRange_nameSetTerms (opts : ListOptions) :
    (nameSetTerms opts).filter isRange = [] := by
  rw [List.filter_eq_nil_iff]
  intro e he
  simp only [nameSetTerms, List.mem_append, List.mem_map] at he
  rcases he with (⟨n, _, rfl⟩ | ⟨n, _, rfl⟩) | ⟨n, _, rfl⟩ <;> simp [isRange, NewTerms]

theorem filter_isRange_labelTerms (reqs : List LabelRequirement) :
    (labelTerms reqs).filter isRange = [] := by
  rw [List.filter_eq_nil_iff]
  intro e he
  simp only [labelTerms, List.mem_filterMap, Option.map_eq_some'] at he
  obtain ⟨r, _, l, _, rfl⟩ := he
  simp [isRange]

theorem filter_isRange_fuzzyExprs (reqs : List LabelRequirement) :
    (reqs.flatMap fuzzyExprs).filter isRange = [] := by
  rw [List.filter_eq_nil_iff]
  intro e he
  simp only [List.mem_flatMap] at he
  obtain ⟨r, _, her⟩ := he
  unfold fuzzyExprs at her
  split at her
  · simp only [List.mem_map] at her
    obtain ⟨v, _, rfl⟩ := her
    simp [isRange]
  · simp at her

theorem fieldExprs_kind (r : FieldRequirement) (e : Expression) (he : e ∈ fieldExprs r) :
    (e.kind = ExprKind.Wildcard ∧ ∃ v ∈ r.valuesList, e.values = [v]) ∨
      (e.kind = ExprKind.Term ∧ e.values = r.valuesList) := by
  unfold fieldExprs at he
  split at he
  · split at he
    · simp only [List.mem_map] at he
      obtain ⟨v, hv, rfl⟩ := he
      exact Or.inl ⟨rfl, v, hv, rfl⟩
    · rw [List.mem_singleton] at he
      subst he
      exact Or.inr ⟨rfl, rfl⟩
  · simp at he

theorem filter_isRange_fieldExprs (reqs : List FieldRequirement) :
    (reqs.flatMap fieldExprs).filter isRange = [] := by
  rw [List.filter_eq_nil_iff]
  intro e he
  simp only [List.mem_flatMap] at he
  obtain ⟨r, _, her⟩ := he
  rcases fieldExprs_kind r e her with ⟨hk, _⟩ | ⟨hk, _⟩ <;> simp [isRange, hk]

theorem mem_nameSetTerms (opts : ListOptions) (e : Expression) (he : e ∈ nameSetTerms opts) :
    (∃ names, opts.ClusterNames = some names ∧ e = NewTerms ClusterPath names) ∨
      (∃ names, opts.Namespaces = some names ∧ e = NewTerms NameSpacePath names) ∨
      (∃ names, opts.Names = some names ∧ e = NewTerms NamePath names) := by
  simp only [nameSetTerms, List.mem_append, List.mem_map, Option.mem_toList,
    Option.mem_def] at he
  rcases he with (⟨n, hn, rfl⟩ | ⟨n, hn, rfl⟩) | ⟨n, hn, rfl⟩
  · exact Or.inl ⟨n, hn, rfl⟩
  · exact Or.inr (Or.inl ⟨n, hn, rfl⟩)
  · exact Or.inr (Or.inr ⟨n, hn, rfl⟩)

theorem mem_labelTerms (reqs : List LabelRequirement) (e : Expression)
    (he : e ∈ labelTerms reqs) :
    ∃ r ∈ reqs, e.kind = ExprKind.Term ∧ e.values = r.valuesList := by
  simp only [labelTerms, List.mem_filterMap, Option.map_eq_some'] at he
  obtain ⟨r, hr, l, _, rfl⟩ := he
  exact ⟨r, hr, rfl, rfl⟩

theorem mem_fuzzyExprs (reqs : List LabelRequirement) (e : Expression)
    (he : e ∈ reqs.flatMap fuzzyExprs) :
    e.kind = ExprKind.Fuzzy ∧ ∃ v, e.values = [v] := by
  simp only [List.mem_flatMap] at he
  obtain ⟨r, _, her⟩ := he
  unfold fuzzyExprs at her
  split at her
  · simp only [List.mem_map] at her
    obtain ⟨v, _, rfl⟩ := her
    exact ⟨rfl, v, rfl⟩
  · simp at her

theorem fuzzyExprs_other_key (r : LabelRequirement) (h : r.key ≠ ElasticSearchLabelFuzzyName) :
    fuzzyExprs r = [] := by
  simp [fuzzyExprs, h]

theorem fieldLoop_skip (SN : String) (pre post : List FieldRequirement) (r : FieldRequirement)
    (hr : ∀ b, fieldRequirementStep SN b r = Result.ok b) (b : QueryBuilder) :
    fieldLoop SN (pre ++ r :: post) b = fieldLoop SN (pre ++ post) b := by
  induction pre generalizing b with
  | nil => simp [fieldLoop, hr]
  | cons x xs ih =>
    simp only [List.cons_append, fieldLoop]
    cases fieldRequirementStep SN b x with
    | ok b2 => exact ih b2
    | err b2 e => rfl
    | panicked => rfl

theorem fieldExprs_unmapped (r : FieldRequirement) (h : operatorLogic r.operator = none) :
    fieldExprs r = [] := by
  unfold fieldExprs
  split
  · rename_i hop
    rw [h] at hop
    simp at hop
  · rfl

theorem splitDot_ne_nil (s : List Char) : splitDot s ≠ [] := by
  cases s with
  | nil => simp [splitDot]
  | cons c cs =>
    unfold splitDot
    split
    · simp
    · split <;> simp

theorem splitDot_append_dot (p q : List Char) :
    splitDot (p ++ '.' :: q) = splitDot p ++ splitDot q := by
  induction p with
  | nil => simp [splitDot]
  | cons c cs ih =>
    by_cases hc : c = '.'
    · simp [splitDot, hc, ih]
    · have hne := splitDot_ne_nil cs
      cases hs : splitDot cs with
      | nil => exact absurd hs hne
      | cons piece pieces =>
        simp only [List.cons_append, splitDot, if_neg hc]
        rw [show cs.append ('.' :: q) = cs ++ '.' :: q from rfl, ih, hs]
        rfl

theorem splitDot_no_dot (s : List Char) (h : '.' ∉ s) : splitDot s = [s] := by
  induction s with
  | nil => rfl
  | cons c cs ih =>
    have hc : ¬ c = '.' := fun h0 => h (by simp [h0])
    have hcs : '.' ∉ cs := fun h0 => h (List.mem_cons_of_mem c h0)
    simp only [splitDot, if_neg hc, ih hcs]

theorem Split_append_dot (p q : String) : Split (p ++ "." ++ q) = Split p ++ Split q := by
  have h : (p ++ "." ++ q).toList = p.toList ++ '.' :: q.toList := by
    simp [String.toList, String.data_append]
  simp only [Split, h, splitDot_append_dot, List.map_append]

theorem Split_ne_nil (q : String) : Split q ≠ [] := by
  simp only [Split, ne_eq, List.map_eq_nil_iff]
  exact splitDot_ne_nil _

theorem extractLoop_not_object (fields : List String) (hf : fields ≠ []) (cur : Value)
    (h : ∀ m, cur ≠ Value.object m) : extractLoop fields cur = Value.nil := by
  cases fields with
  | nil => exact absurd rfl hf
  | cons f rest =>
    cases cur with
    | nil => rfl
    | other t => rfl
    | object m => exact absurd rfl (h m)

theorem extractLoop_append (front back : List String) (hb : back ≠ []) (cur : Value) :
    extractLoop (front ++ back) cur = extractLoop back (extractLoop front cur) := by
  induction front generalizing cur with
  | nil => rfl
  | cons f rest ih =>
    cases cur with
    | nil =>
      simp only [List.cons_append, extractLoop]
      exact (extractLoop_not_object back hb Value.nil (fun m h0 => by cases h0)).symm
    | other t =>
      simp only [List.cons_append, extractLoop]
      exact (extractLoop_not_object back hb Value.nil (fun m h0 => by cases h0)).symm
    | object m =>
      simp only [List.cons_append, extractLoop]
      exact ih _

theorem printfLoop_no_percent (s : List Char) (h : '%' ∉ s) : printfLoop s 0 = s := by
  induction s with
  | nil => rfl
  | cons c cs ih =>
    have hc : ¬ c = '%' := fun h0 => h (by simp [h0])
    have hcs : '%' ∉ cs := fun h0 => h (List.mem_cons_of_mem c h0)
    simp only [printfLoop, if_neg hc, ih hcs]

theorem Errorf_no_percent (t : String) (h : '%' ∉ t.toList) : Errorf t = t := by
  simp only [Errorf, printfLoop_no_percent t.toList h]
  rfl

theorem ensureIndex_cases (client : String → String → DoResult) (mapping indexName : String) :
    (∀ err, client indexName mapping = DoResult.failed err →
        ensureIndex client mapping indexName = some (IndexError.transport err)) ∧
      (∀ t, client indexName mapping = DoResult.responded { IsError := false, text := t } →
        ensureIndex client mapping indexName = none) ∧
      (∀ t, client indexName mapping = DoResult.responded { IsError := true, text := t } →
        Contains t.toList "resource_already_exists_exception".toList = true →
        ensureIndex client mapping indexName = none) ∧
      (∀ t, client indexName mapping = DoResult.responded { IsError := true, text := t } →
        Contains t.toList "resource_already_exists_exception".toList = false →
        ensureIndex client mapping indexName = some (IndexError.message (Errorf t))) := by
  refine ⟨?_, ?_, ?_, ?_⟩
  · intro err h
    simp [ensureIndex, h]
  · intro t h
    simp [ensureIndex, h]
  · intro t h hc
    unfold ensureIndex
    rw [h]
    simp only [hc, if_true]
  · intro t h hc
    unfold ensureIndex
    rw [h]
    simp only [hc, if_true]
    rfl

theorem genListQueryBuilder_ok_plain (SN : String) (s : ResourceStorage)
    (ownerIds : List String) (opts : ListOptions) (b1 : QueryBuilder)
    (h : genListQueryBuilder SN s ownerIds opts = Result.ok b1) :
    ∀ r ∈ iterated opts.EnhancedFieldSelector, plainFields r := by
  cases ha : applyListOptionToQueryBuilder SN NewQueryBuilder opts with
  | err b2 e => rw [genListQueryBuilder_err SN s ownerIds opts b2 e ha] at h; simp at h
  | panicked => simp [genListQueryBuilder, ha] at h
  | ok b2 => exact (apply_ok_imp SN _ b2 opts ha).1

theorem mem_labelTerms_mapped (reqs : List LabelRequirement) (e : Expression)
    (he : e ∈ labelTerms reqs) :
    ∃ r ∈ reqs, operatorLogic r.operator ≠ none ∧ e.values = r.valuesList := by
  simp only [labelTerms, List.mem_filterMap, Option.map_eq_some'] at he
  obtain ⟨r, hr, l, hl, rfl⟩ := he
  exact ⟨r, hr, by rw [hl]; simp, rfl⟩

theorem fieldExprs_term (r : FieldRequirement) (e : Expression) (he : e ∈ fieldExprs r)
    (hk : e.kind = ExprKind.Term) :
    operatorLogic r.operator ≠ none ∧ (r.fields.map fun f => f.name).head? ≠ some "ws" ∧
      e.values = r.valuesList := by
  unfold fieldExprs at he
  split at he
  · rename_i f0 rest l hfields hop
    split at he
    · simp only [List.mem_map] at he
      obtain ⟨v, _, rfl⟩ := he
      simp at hk
    · rename_i hws
      rw [List.mem_singleton] at he
      subst he
      refine ⟨by rw [hop]; simp, ?_, rfl⟩
      rw [hfields]
      simpa using hws
  · simp at he

theorem mapIndex_first (before after : List (String × Value)) (key : String) (v : Value)
    (h : ∀ kv ∈ before, kv.1 ≠ key) : mapIndex (before ++ (key, v) :: after) key = v := by
  induction before with
  | nil => simp [mapIndex]
  | cons kv rest ih =>
    rcases kv with ⟨k, w⟩
    have hk : ¬ k = key := h (k, w) (List.mem_cons_self _ _)
    simp only [List.cons_append, mapIndex, if_neg hk]
    exact ih (fun x hx => h x (List.mem_cons_of_mem _ hx))

theorem mapIndex_missing (m : List (String × Value)) (key : String)
    (h : ∀ kv ∈ m, kv.1 ≠ key) : mapIndex m key = Value.nil := by
  induction m with
  | nil => rfl
  | cons kv rest ih =>
    rcases kv with ⟨k, w⟩
    have hk : ¬ k = key := h (k, w) (List.mem_cons_self _ _)
    simp only [mapIndex, if_neg hk]
    exact ih (fun x hx => h x (List.mem_cons_of_mem _ hx))

/-! ## The claims -/

/-- C1 (as stated, refuted): the label requirement `env in (a, b)` adds no
expression at all, so not every requirement of the label selector adds a Term
expression. -/
theorem label_in_adds_nothing :
    applyListOptionToQueryBuilder "es" NewQueryBuilder labelInOptions =
      Result.ok { size := 500, from_ := 0, sort := [], expressions := [] } := by
  decide

/-- C1 (amended): the label selector block appends, in the order of the
requirements, exactly one Term expression over `LabelPath` for each
requirement whose operator has a case in the switch, carrying the value list
of the requirement, Required for Exists, DoesNotExist, Equals and
DoubleEquals and Forbidden for NotEquals and NotIn, and nothing for any
other operator; on success these expressions follow those of the name sets
and of the time range and precede those of the later blocks. -/
theorem label_requirements_add_terms (b : QueryBuilder) (opts : ListOptions) :
    (applyLabelSelector b opts).expressions =
        b.expressions ++ (iterated opts.LabelSelector).filterMap (fun r =>
          (operatorLogic r.operator).map fun l =>
            { path := LabelPath, values := r.valuesList, kind := ExprKind.Term, logic := l }) ∧
      (∀ (SN : String) (b1 : QueryBuilder),
        applyListOptionToQueryBuilder SN b opts = Result.ok b1 →
          b1.expressions =
            (b.expressions ++ nameSetTerms opts ++ rangeExprs opts) ++
              (iterated opts.LabelSelector).filterMap (fun r =>
                (operatorLogic r.operator).map fun l =>
                  { path := LabelPath, values := r.valuesList, kind := ExprKind.Term,
                    logic := l }) ++
              ((iterated opts.ExtraLabelSelector).flatMap fuzzyExprs ++
                (iterated opts.EnhancedFieldSelector).flatMap fieldExprs)) ∧
      ∀ op : Operator,
        (operatorLogic op = some LogicType.Must ↔
          op = Operator.Equals ∨ op = Operator.DoubleEquals ∨ op = Operator.Exists ∨
            op = Operator.DoesNotExist) ∧
        (operatorLogic op = some LogicType.MustNot ↔
          op = Operator.NotEquals ∨ op = Operator.NotIn) ∧
        (operatorLogic op = none ↔
          op = Operator.In ∨ op = Operator.GreaterThan ∨ op = Operator.LessThan) := by
  refine ⟨?_, ?_, ?_⟩
  · rw [applyLabelSelector_eq]
    rfl
  · intro SN b1 h
    rw [(apply_ok_imp SN b b1 opts h).2]
    simp [headExprs, labelTerms, List.append_assoc]
  · intro op
    cases op <;> simp [operatorLogic]

/-- Witness of C1 (amended) on the selector `env = a, tier != b`: the
translation succeeds and leaves a Required Term over the label path with
value `a`, then a Forbidden one with value `b`. -/
theorem label_requirements_add_terms_witness :
    applyListOptionToQueryBuilder "es" NewQueryBuilder labelTwoOptions =
        Result.ok labelTwoBuilder ∧
      labelTwoBuilder.expressions =
        [{ path := LabelPath, values := ["a"], kind := ExprKind.Term, logic := LogicType.Must },
         { path := LabelPath, values := ["b"], kind := ExprKind.Term,
           logic := LogicType.MustNot }] :=
  ⟨by decide,
   ((label_requirements_add_terms NewQueryBuilder labelTwoOptions).2.1 "es" labelTwoBuilder
      (by decide)).trans (by decide)⟩

/-- C2 (as stated, refuted): with two requirements that each target a list
field, `a` in the first and `b` in the second, the error names `a` only. -/
theorem second_list_field_not_named :
    applyListOptionToQueryBuilder "es" NewQueryBuilder twoListOptions =
      Result.err NewQueryBuilder
        { group := "clusterpedia.io", kind := "ListOptions", name := "fieldSelector",
          causes := [{ field := "spec.a", badValue := "a",
                       detail := "Storage<es>: Not Support list field" }] } := by
  decide

/-- C2 (amended): `applyListOptionToQueryBuilder` returns an error exactly
when the requirements of the enhanced field selector split into requirements
that have a field and no list field, followed by a requirement with a list
field; the error then names every list field of that first offending
requirement, in field order, and nothing else, whatever the requirements
after it contain. -/
theorem error_names_first_offender (SN : String) (b b1 : QueryBuilder) (opts : ListOptions)
    (e : StatusError) :
    applyListOptionToQueryBuilder SN b opts = Result.err b1 e ↔
      ∃ good bad rest,
        iterated opts.EnhancedFieldSelector = good ++ bad :: rest ∧
        (∀ r ∈ good, (∀ f ∈ r.fields, f.isList = false) ∧ r.fields ≠ []) ∧
        (∃ f ∈ bad.fields, f.isList = true) ∧
        b1 = { b with expressions := b.expressions ++ headExprs opts ++ good.flatMap fieldExprs } ∧
        e = { group := "clusterpedia.io", kind := "ListOptions", name := "fieldSelector",
              causes := (bad.fields.filter fun f => f.isList).map fun f =>
                { field := f.path, badValue := f.name,
                  detail := "Storage<" ++ SN ++ ">: Not Support list field" } } := by
  rw [apply_eq_fieldLoop]
  constructor
  · intro h
    cases hl : fieldLoop SN (iterated opts.EnhancedFieldSelector)
        { b with expressions := b.expressions ++ headExprs opts } with
    | ok b2 => rw [hl] at h; simp at h
    | panicked => rw [hl] at h; simp at h
    | err b2 e2 =>
      rw [hl] at h
      simp only [Result.err.injEq] at h
      obtain ⟨good, bad, rest, hs, hg, hb, hb2, he2⟩ := fieldLoop_err_imp SN _ _ _ _ hl
      refine ⟨good, bad, rest, hs, hg, hb, ?_, ?_⟩
      · rw [← h.1, hb2]
      · rw [← h.2, he2]
        rfl
  · rintro ⟨good, bad, rest, hs, hg, hb, hb1, he⟩
    rw [hs, fieldLoop_append_bad SN good bad rest _ hg, fieldRequirementStep_list SN _ bad hb]
    simp only [Result.err.injEq]
    exact ⟨hb1.symm, he.symm⟩

/-- Witness of C2 (amended): on the two offending requirements the split has
no requirement before the first one, and the error names `a`. -/
theorem error_names_first_offender_witness :
    applyListOptionToQueryBuilder "es" NewQueryBuilder twoListOptions =
      Result.err NewQueryBuilder
        { group := "clusterpedia.io", kind := "ListOptions", name := "fieldSelector",
          causes := [{ field := "spec.a", badValue := "a",
                       detail := "Storage<es>: Not Support list field" }] } :=
  (error_names_first_offender "es" NewQueryBuilder NewQueryBuilder twoListOptions _).mpr
    ⟨[], { fields := [{ name := "a", isList := true, path := "spec.a" }],
           operator := Operator.Equals, valuesList := ["x"] },
     [{ fields := [{ name := "b", isList := true, path := "spec.b" }],
        operator := Operator.Equals, valuesList := ["y"] }],
     by decide, by simp, by simp, by decide, by decide⟩

/-- Outside the inputs the selector library builds: on a requirement of the
enhanced field selector without any field, line 96 reads `fields[0]` of an
empty slice, so the translation panics and `genListQuery` returns nothing. -/
theorem no_fields_panics :
    applyListOptionToQueryBuilder "es" NewQueryBuilder noFieldsOptions = Result.panicked ∧
      genListQuery (fun b => b) "es" podsStorage [] noFieldsOptions = none := by
  decide

/-- C3: for every ListOptions, whose requirements of the enhanced field
selector each have at least one field as the selector library builds them,
`applyListOptionToQueryBuilder` returns an error if and only if some
requirement targets a list field, and returns nil on every other input,
whatever the keys, tokens, filter sets and operators are; `genListQuery` then
returns the error without a query document in the first case and a document
without error in the second. -/
theorem error_iff_list_field (SN : String) (b : QueryBuilder) (opts : ListOptions)
    (hne : ∀ r ∈ iterated opts.EnhancedFieldSelector, r.fields ≠ []) :
    ((∃ b1 e, applyListOptionToQueryBuilder SN b opts = Result.err b1 e) ↔
        ∃ r ∈ iterated opts.EnhancedFieldSelector, ∃ f ∈ r.fields, f.isList = true) ∧
      ((¬ ∃ r ∈ iterated opts.EnhancedFieldSelector, ∃ f ∈ r.fields, f.isList = true) →
        ∃ b1, applyListOptionToQueryBuilder SN b opts = Result.ok b1) ∧
      ∀ (Doc : Type) (build : QueryBuilder → Doc) (s : ResourceStorage) (ownerIds : List String),
        ((∃ r ∈ iterated opts.EnhancedFieldSelector, ∃ f ∈ r.fields, f.isList = true) →
          ∃ e, genListQuery build SN s ownerIds opts = some (none, some e)) ∧
        ((¬ ∃ r ∈ iterated opts.EnhancedFieldSelector, ∃ f ∈ r.fields, f.isList = true) →
          ∃ b1, genListQuery build SN s ownerIds opts = some (some (build b1), none)) := by
  have key : ∀ b0 : QueryBuilder,
      ((∃ r ∈ iterated opts.EnhancedFieldSelector, ∃ f ∈ r.fields, f.isList = true) ∧
          ∃ b1 e, applyListOptionToQueryBuilder SN b0 opts = Result.err b1 e) ∨
        ((¬ ∃ r ∈ iterated opts.EnhancedFieldSelector, ∃ f ∈ r.fields, f.isList = true) ∧
          ∃ b1, applyListOptionToQueryBuilder SN b0 opts = Result.ok b1) := by
    intro b0
    rcases fieldLoop_nonempty SN (iterated opts.EnhancedFieldSelector)
        { b0 with expressions := b0.expressions ++ headExprs opts } hne with
      ⟨hl, b1, e, h⟩ | ⟨hl, h⟩
    · exact Or.inl ⟨hl, b1, e, by rw [apply_eq_fieldLoop, h]⟩
    · exact Or.inr ⟨hl, _, by rw [apply_eq_fieldLoop, h]⟩
  refine ⟨⟨?_, ?_⟩, ?_, ?_⟩
  · rintro ⟨b1, e, h⟩
    rcases key b with ⟨hl, _⟩ | ⟨_, b2, h2⟩
    · exact hl
    · rw [h2] at h
      simp at h
  · intro hl
    rcases key b with ⟨_, h⟩ | ⟨hn, _⟩
    · exact h
    · exact absurd hl hn
  · intro hn
    rcases key b with ⟨hl, _⟩ | ⟨_, h⟩
    · exact absurd hl hn
    · exact h
  · intro Doc build s ownerIds
    refine ⟨?_, ?_⟩
    · intro hl
      rcases key NewQueryBuilder with ⟨_, b1, e, h⟩ | ⟨hn, _⟩
      · exact ⟨e, by simp only [genListQuery, genListQueryBuilder_err SN s ownerIds opts b1 e h]⟩
      · exact absurd hl hn
    · intro hn
      rcases key NewQueryBuilder with ⟨hl, _⟩ | ⟨_, b1, h⟩
      · exact absurd hl hn
      · exact ⟨{ b1 with expressions := b1.expressions ++ ownerTerms opts ownerIds ++ scopeTerms s },
          by simp only [genListQuery, genListQueryBuilder_ok SN s ownerIds opts b1 h]⟩

/-- Witness of C3: on the two offending requirements, each with one field,
`genListQuery` returns an error and no document. -/
theorem error_iff_list_field_witness :
    ∃ e, genListQuery (fun b => b) "es" podsStorage [] twoListOptions = some (none, some e) :=
  (((error_iff_list_field "es" NewQueryBuilder twoListOptions
      (by simp [iterated, twoListOptions, emptyOptions])).2.2
        QueryBuilder (fun b => b) podsStorage []).1)
    ⟨{ fields := [{ name := "a", isList := true, path := "spec.a" }],
       operator := Operator.Equals, valuesList := ["x"] },
     by simp [iterated, twoListOptions, emptyOptions],
     { name := "a", isList := true, path := "spec.a" }, by simp, rfl⟩

/-- C4 (as stated, refuted): for the reserved key with operator Equals and
value `foo` the translation adds one expression of kind Fuzzy, and no
expression of kind Wildcard. -/
theorem fuzzy_name_is_not_wildcard :
    applyListOptionToQueryBuilder "es" NewQueryBuilder fuzzyFooOptions =
        Result.ok fuzzyFooBuilder ∧
      fuzzyFooBuilder.expressions = [NewFuzzy NamePath "foo"] ∧
      NewWildcard NamePath "foo" ∉ fuzzyFooBuilder.expressions := by
  decide

/-- C4 (amended): for each requirement of the extra label selector with the
reserved key and for each of its values, in order, the block appends exactly
one expression of kind Fuzzy over `NamePath` with that single value,
Forbidden for the operators NotEquals and NotIn and Required for Equals and
every other operator; requirements with another key add nothing. On success
these expressions follow those of the label selector and precede those of
the enhanced field selector. -/
theorem fuzzy_name_adds_fuzzy (b : QueryBuilder) (opts : ListOptions) :
    (applyExtraLabelSelector b opts).expressions =
        b.expressions ++ (iterated opts.ExtraLabelSelector).flatMap (fun r =>
          if r.key = ElasticSearchLabelFuzzyName then
            r.valuesList.map fun v =>
              { path := NamePath, values := [v], kind := ExprKind.Fuzzy,
                logic := if r.operator = Operator.NotEquals ∨ r.operator = Operator.NotIn
                  then LogicType.MustNot else LogicType.Must }
          else []) ∧
      ∀ (SN : String) (b1 : QueryBuilder),
        applyListOptionToQueryBuilder SN b opts = Result.ok b1 →
          b1.expressions =
            (b.expressions ++ nameSetTerms opts ++ rangeExprs opts ++
                labelTerms (iterated opts.LabelSelector)) ++
              (iterated opts.ExtraLabelSelector).flatMap (fun r =>
                if r.key = ElasticSearchLabelFuzzyName then
                  r.valuesList.map fun v =>
                    { path := NamePath, values := [v], kind := ExprKind.Fuzzy,
                      logic := if r.operator = Operator.NotEquals ∨ r.operator = Operator.NotIn
                        then LogicType.MustNot else LogicType.Must }
                else []) ++
              (iterated opts.EnhancedFieldSelector).flatMap fieldExprs := by
  have hf : (fun r : LabelRequirement =>
      if r.key = ElasticSearchLabelFuzzyName then
        r.valuesList.map fun v =>
          ({ path := NamePath, values := [v], kind := ExprKind.Fuzzy,
             logic := if r.operator = Operator.NotEquals ∨ r.operator = Operator.NotIn
               then LogicType.MustNot else LogicType.Must } : Expression)
      else []) = fuzzyExprs := by
    funext r
    simp only [fuzzyExprs, fuzzyLogic_eq]
  rw [hf]
  refine ⟨?_, ?_⟩
  · rw [applyExtraLabelSelector_eq]
  · intro SN b1 h
    rw [(apply_ok_imp SN b b1 opts h).2]
    simp [headExprs, List.append_assoc]

/-- Witness of C4 (amended): the reserved key with operator Equals and value
`foo` yields one Required Fuzzy expression on the name path. -/
theorem fuzzy_name_adds_fuzzy_witness :
    applyListOptionToQueryBuilder "es" NewQueryBuilder fuzzyFooOptions =
        Result.ok fuzzyFooBuilder ∧
      fuzzyFooBuilder.expressions =
        [{ path := NamePath, values := ["foo"], kind := ExprKind.Fuzzy,
           logic := LogicType.Must }] :=
  ⟨by decide,
   ((fuzzy_name_adds_fuzzy NewQueryBuilder fuzzyFooOptions).2 "es" fuzzyFooBuilder
      (by decide)).trans (by decide)⟩

/-- C5 (the code at the failing input): on the token `9223372036854775808`
integer parsing fails with a range error, and the offset the translation
sets is the largest 64 bit integer, not 0. -/
theorem offset_saturates_on_range_error :
    (Atoi "9223372036854775808").2 = some NumErr.ErrRange ∧
      applyListOptionToQueryBuilder "es" NewQueryBuilder overflowTokenOptions =
        Result.ok { size := 500, from_ := 9223372036854775807, sort := [], expressions := [] } := by
  decide

/-- C6: whenever the translation succeeds, the page size of the builder is
`Limit` when `Limit` is positive and 500 when it is zero or negative. -/
theorem page_size_of_limit (SN : String) (b b1 : QueryBuilder) (opts : ListOptions)
    (h : applyListOptionToQueryBuilder SN b opts = Result.ok b1) :
    (0 < opts.Limit → b1.size = opts.Limit) ∧ (opts.Limit ≤ 0 → b1.size = 500) := by
  rw [(apply_ok_imp SN b b1 opts h).2]
  refine ⟨?_, ?_⟩
  · intro hpos
    simp [applyPaging, hpos]
  · intro hle
    simp [applyPaging, not_lt.mpr hle]

/-- Witness of C6: limit 10 gives page size 10. -/
theorem page_size_of_limit_witness :
    (0 : Int) < pageOptions.Limit ∧
      applyListOptionToQueryBuilder "es" NewQueryBuilder pageOptions =
        Result.ok { size := 10, from_ := 42, sort := [], expressions := [] } ∧
      ({ size := 10, from_ := 42, sort := [], expressions := [] } : QueryBuilder).size =
        pageOptions.Limit :=
  ⟨by decide, by decide,
   (page_size_of_limit "es" NewQueryBuilder _ pageOptions (by decide)).1 (by decide)⟩

/-- C7 (as stated, refuted): with the name set `a` and the field requirement
`metadata.name = b` the expression sequence built by `genListQuery` holds two
Required Term expressions over `NamePath`, not exactly one. -/
theorem two_required_terms_over_name_path :
    genListQueryBuilder "es" podsStorage [] nameTwiceOptions = Result.ok nameTwiceBuilder ∧
      nameTwiceBuilder.expressions.filter (isRequiredTermOver NamePath) =
        [NewTerms NamePath ["a"], NewTerms NamePath ["b"]] := by
  decide

/-- C7 (amended): on every successful call of `genListQuery`, for each of
the cluster name, namespace and name sets that is present (in particular
each non-empty one), the expression sequence contains the Required Term
expression over the path of the set whose values are exactly the elements of
the set; it is the only Required Term expression over that path whenever no
requirement of the enhanced field selector adds a Required Term expression
over the same path. -/
theorem name_sets_required_terms (SN : String) (s : ResourceStorage) (ownerIds : List String)
    (opts : ListOptions) (b1 : QueryBuilder)
    (h : genListQueryBuilder SN s ownerIds opts = Result.ok b1) :
    (∀ names, opts.ClusterNames = some names →
        NewTerms ClusterPath names ∈ b1.expressions ∧
        ((∀ r ∈ iterated opts.EnhancedFieldSelector, ∀ e ∈ fieldExprs r,
            isRequiredTermOver ClusterPath e = false) →
          b1.expressions.filter (isRequiredTermOver ClusterPath) =
            [NewTerms ClusterPath names])) ∧
      (∀ names, opts.Namespaces = some names →
        NewTerms NameSpacePath names ∈ b1.expressions ∧
        ((∀ r ∈ iterated opts.EnhancedFieldSelector, ∀ e ∈ fieldExprs r,
            isRequiredTermOver NameSpacePath e = false) →
          b1.expressions.filter (isRequiredTermOver NameSpacePath) =
            [NewTerms NameSpacePath names])) ∧
      (∀ names, opts.Names = some names →
        NewTerms NamePath names ∈ b1.expressions ∧
        ((∀ r ∈ iterated opts.EnhancedFieldSelector, ∀ e ∈ fieldExprs r,
            isRequiredTermOver NamePath e = false) →
          b1.expressions.filter (isRequiredTermOver NamePath) = [NewTerms NamePath names])) := by
  have hb := genListQueryBuilder_ok_imp SN s ownerIds opts b1 h
  refine ⟨?_, ?_, ?_⟩
  · intro names hn
    have hf := filter_nameSetTerms_cluster opts names hn
    refine ⟨?_, ?_⟩
    · rw [hb]
      apply List.mem_append_left
      have : NewTerms ClusterPath names ∈
          (nameSetTerms opts).filter (isRequiredTermOver ClusterPath) := by
        rw [hf]
        exact List.mem_singleton.mpr rfl
      exact (List.mem_filter.mp this).1
    · intro hfield
      rw [hb, List.filter_append, hf,
        filter_tail_nil ClusterPath (by decide) (by decide) (by decide) (by decide) (by decide)
          opts s ownerIds hfield]
      rfl
  · intro names hn
    have hf := filter_nameSetTerms_namespace opts names hn
    refine ⟨?_, ?_⟩
    · rw [hb]
      apply List.mem_append_left
      have : NewTerms NameSpacePath names ∈
          (nameSetTerms opts).filter (isRequiredTermOver NameSpacePath) := by
        rw [hf]
        exact List.mem_singleton.mpr rfl
      exact (List.mem_filter.mp this).1
    · intro hfield
      rw [hb, List.filter_append, hf,
        filter_tail_nil NameSpacePath (by decide) (by decide) (by decide) (by decide) (by decide)
          opts s ownerIds hfield]
      rfl
  · intro names hn
    have hf := filter_nameSetTerms_name opts names hn
    refine ⟨?_, ?_⟩
    · rw [hb]
      apply List.mem_append_left
      have : NewTerms NamePath names ∈
          (nameSetTerms opts).filter (isRequiredTermOver NamePath) := by
        rw [hf]
        exact List.mem_singleton.mpr rfl
      exact (List.mem_filter.mp this).1
    · intro hfield
      rw [hb, List.filter_append, hf,
        filter_tail_nil NamePath (by decide) (by decide) (by decide) (by decide) (by decide)
          opts s ownerIds hfield]
      rfl

/-- Witness of C7 (amended): the name set `a, b` alone yields exactly one
Required Term expression over `NamePath`, with the values `a, b`. -/
theorem name_sets_required_terms_witness :
    genListQueryBuilder "es" podsStorage [] namesOnlyOptions =
        Result.ok { size := 500, from_ := 0, sort := [],
                    expressions := NewTerms NamePath ["a", "b"] :: podsScope } ∧
      (NewTerms NamePath ["a", "b"] :: podsScope).filter (isRequiredTermOver NamePath) =
        [NewTerms NamePath ["a", "b"]] :=
  ⟨by decide,
   ((name_sets_required_terms "es" podsStorage [] namesOnlyOptions
      { size := 500, from_ := 0, sort := [],
        expressions := NewTerms NamePath ["a", "b"] :: podsScope } (by decide)).2.2
      ["a", "b"] rfl).2 (by simp [iterated, namesOnlyOptions, emptyOptions])⟩

/-- C8 (as stated, refuted): a cluster name set that is present with length
zero does get a Term expression, whose value list is empty. -/
theorem empty_present_set_adds_term :
    applyListOptionToQueryBuilder "es" NewQueryBuilder emptyClusterSetOptions =
      Result.ok
        { size := 500, from_ := 0, sort := [],
          expressions :=
            [{ path := ClusterPath, values := [], kind := ExprKind.Term,
               logic := LogicType.Must }] } := by
  decide

/-- C8 (amended): the first block appends one Term expression for each name
set that is not nil and nothing else; for a set that is absent (nil) none of
the appended expressions is over the path of that set. -/
theorem absent_set_adds_no_term (b : QueryBuilder) (opts : ListOptions) :
    (applyNameSets b opts).expressions =
        b.expressions ++
          (opts.ClusterNames.toList.map (NewTerms ClusterPath) ++
            opts.Namespaces.toList.map (NewTerms NameSpacePath) ++
            opts.Names.toList.map (NewTerms NamePath)) ∧
      (opts.ClusterNames = none → ∀ e ∈ nameSetTerms opts, e.path ≠ ClusterPath) ∧
      (opts.Namespaces = none → ∀ e ∈ nameSetTerms opts, e.path ≠ NameSpacePath) ∧
      (opts.Names = none → ∀ e ∈ nameSetTerms opts, e.path ≠ NamePath) := by
  refine ⟨by rw [applyNameSets_eq]; rfl, ?_, ?_, ?_⟩
  · intro h e he
    simp only [nameSetTerms, h, Option.toList, List.map_nil, List.nil_append,
      List.mem_append, List.mem_map] at he
    rcases he with ⟨n, _, rfl⟩ | ⟨n, _, rfl⟩ <;> simp only [NewTerms] <;> decide
  · intro h e he
    simp only [nameSetTerms, h, Option.toList, List.map_nil, List.append_nil,
      List.mem_append, List.mem_map] at he
    rcases he with ⟨n, _, rfl⟩ | ⟨n, _, rfl⟩ <;> simp only [NewTerms] <;> decide
  · intro h e he
    simp only [nameSetTerms, h, Option.toList, List.map_nil, List.append_nil,
      List.mem_append, List.mem_map] at he
    rcases he with ⟨n, _, rfl⟩ | ⟨n, _, rfl⟩ <;> simp only [NewTerms] <;> decide

/-- Witness of C8 (amended): with the namespace set `ns` alone, the cluster
name set is absent and the one expression the first block adds is over the
namespace path, not over the cluster path. -/
theorem absent_set_adds_no_term_witness :
    (applyNameSets NewQueryBuilder namespaceOnlyOptions).expressions =
        [NewTerms NameSpacePath ["ns"]] ∧
      (NewTerms NameSpacePath ["ns"]).path ≠ ClusterPath :=
  ⟨(absent_set_adds_no_term NewQueryBuilder namespaceOnlyOptions).1,
   (absent_set_adds_no_term NewQueryBuilder namespaceOnlyOptions).2.1 rfl
     (NewTerms NameSpacePath ["ns"]) (by decide)⟩

/-- C9: on every successful call of `genListQuery` the builder handed to
`build` ends with the Required Term expressions over `GroupPath`,
`VersionPath` and `ResourcePath`, in this order, each with the one configured
value; for the empty ListOptions they are the only expressions, the page size
is 500, the offset 0 and the sort list empty. -/
theorem scope_terms_are_last (SN : String) (s : ResourceStorage) (ownerIds : List String) :
    (∀ (opts : ListOptions) (b1 : QueryBuilder),
        genListQueryBuilder SN s ownerIds opts = Result.ok b1 →
          (∃ before, b1.expressions = before ++
            [{ path := GroupPath, values := [s.storageVersion.Group], kind := ExprKind.Term,
               logic := LogicType.Must },
             { path := VersionPath, values := [s.storageVersion.Version], kind := ExprKind.Term,
               logic := LogicType.Must },
             { path := ResourcePath, values := [s.storageGroupResource.Resource],
               kind := ExprKind.Term, logic := LogicType.Must }]) ∧
          ∀ (Doc : Type) (build : QueryBuilder → Doc),
            genListQuery build SN s ownerIds opts = some (some (build b1), none)) ∧
      genListQueryBuilder SN s ownerIds emptyOptions =
        Result.ok
          { size := 500, from_ := 0, sort := [],
            expressions :=
              [{ path := GroupPath, values := [s.storageVersion.Group], kind := ExprKind.Term,
                 logic := LogicType.Must },
               { path := VersionPath, values := [s.storageVersion.Version],
                 kind := ExprKind.Term, logic := LogicType.Must },
               { path := ResourcePath, values := [s.storageGroupResource.Resource],
                 kind := ExprKind.Term, logic := LogicType.Must }] } := by
  refine ⟨?_, ?_⟩
  · intro opts b1 h
    cases ha : applyListOptionToQueryBuilder SN NewQueryBuilder opts with
    | err b2 e => rw [genListQueryBuilder_err SN s ownerIds opts b2 e ha] at h; simp at h
    | panicked => simp [genListQueryBuilder, ha] at h
    | ok b2 =>
      rw [genListQueryBuilder_ok SN s ownerIds opts b2 ha] at h
      simp only [Result.ok.injEq] at h
      refine ⟨⟨b2.expressions ++ ownerTerms opts ownerIds, ?_⟩, ?_⟩
      · rw [← h]
        rfl
      · intro Doc build
        simp only [genListQuery, genListQueryBuilder_ok SN s ownerIds opts b2 ha, h]
  · have ha : applyListOptionToQueryBuilder SN NewQueryBuilder emptyOptions =
        Result.ok { size := 500, from_ := 0, sort := [], expressions := [] } := by
      rw [apply_ok_of_plain SN NewQueryBuilder emptyOptions (by simp [iterated, emptyOptions])]
      decide
    rw [genListQueryBuilder_ok SN s ownerIds emptyOptions _ ha]
    rfl

/-- Witness of C9: the empty ListOptions on the storage of pods. -/
theorem scope_terms_are_last_witness :
    genListQueryBuilder "es" podsStorage [] emptyOptions =
        Result.ok { size := 500, from_ := 0, sort := [], expressions := podsScope } ∧
      ∃ before, podsScope = before ++ podsScope :=
  ⟨by decide,
   ((scope_terms_are_last "es" podsStorage []).1 emptyOptions
      { size := 500, from_ := 0, sort := [], expressions := podsScope } (by decide)).1⟩

/-- C10: a requirement of the enhanced field selector whose fields are no
lists, whose first field name is not `ws` and whose operator is one of the
six mapped ones adds exactly one Term expression; its path is `object.`
followed by the field names joined with `.`, its values are the values of
the requirement, and it is Required for Exists, DoesNotExist, Equals and
DoubleEquals and Forbidden for NotEquals and NotIn. On success of the whole
translation the expression sits between those of the requirements before and
after it. -/
theorem plain_requirement_adds_term (SN : String) (b : QueryBuilder) (r : FieldRequirement)
    (l : LogicType) (hnl : ∀ f ∈ r.fields, f.isList = false) (hne : r.fields ≠ [])
    (hws : (r.fields.map fun f => f.name).head? ≠ some "ws")
    (hop : operatorLogic r.operator = some l) :
    fieldRequirementStep SN b r =
        Result.ok { b with expressions := b.expressions ++
          [{ path := "object." ++ ".".intercalate (r.fields.map fun f => f.name),
             values := r.valuesList, kind := ExprKind.Term, logic := l }] } ∧
      (l = LogicType.Must ↔
        r.operator = Operator.Exists ∨ r.operator = Operator.DoesNotExist ∨
          r.operator = Operator.Equals ∨ r.operator = Operator.DoubleEquals) ∧
      (l = LogicType.MustNot ↔
        r.operator = Operator.NotEquals ∨ r.operator = Operator.NotIn) ∧
      ∀ (opts : ListOptions) (pre post : List FieldRequirement) (b0 b1 : QueryBuilder),
        iterated opts.EnhancedFieldSelector = pre ++ r :: post →
        applyListOptionToQueryBuilder SN b0 opts = Result.ok b1 →
          b1.expressions =
            (b0.expressions ++ headExprs opts ++ pre.flatMap fieldExprs) ++
              [{ path := "object." ++ ".".intercalate (r.fields.map fun f => f.name),
                 values := r.valuesList, kind := ExprKind.Term, logic := l }] ++
              post.flatMap fieldExprs := by
  have hx := fieldExprs_plain r l hne hws hop
  have ht := operatorLogic_table r.operator
  rw [hop] at ht
  refine ⟨?_, ?_, ?_, ?_⟩
  · rw [fieldRequirementStep_ok SN b r hnl hne, hx]
  · rw [← ht.1]
    simp
  · rw [← ht.2.1]
    simp
  · intro opts pre post b0 b1 hsplit h
    rw [(apply_ok_imp SN b0 b1 opts h).2, hsplit]
    simp [hx, List.append_assoc]

/-- Witness of C10: the requirement `metadata.name = b` adds the Required
Term expression over `object.metadata.name` with the value `b`. -/
theorem plain_requirement_adds_term_witness :
    fieldRequirementStep "es" NewQueryBuilder metadataNameRequirement =
      Result.ok { NewQueryBuilder with expressions := NewQueryBuilder.expressions ++
        [{ path := "object." ++ ".".intercalate
             (metadataNameRequirement.fields.map fun f => f.name),
           values := metadataNameRequirement.valuesList, kind := ExprKind.Term,
           logic := LogicType.Must }] } :=
  (plain_requirement_adds_term "es" NewQueryBuilder metadataNameRequirement LogicType.Must
    (by decide) (by decide) (by decide) (by decide)).1

/-- C11: a requirement of the enhanced field selector whose fields are no
lists, whose first field name is `ws` and whose operator is one of the six
mapped ones adds exactly one Wildcard expression for each of its values, in
order, and no other expression; the path of each is `object` followed by the
remaining field names, joined with `.`, and the combinator is Required for
Exists, DoesNotExist, Equals and DoubleEquals and Forbidden for NotEquals and
NotIn. On success of the whole translation these expressions sit between
those of the requirements before and after it. -/
theorem ws_requirement_adds_wildcards (SN : String) (b : QueryBuilder) (r : FieldRequirement)
    (l : LogicType) (rest : List String) (hnl : ∀ f ∈ r.fields, f.isList = false)
    (hfields : (r.fields.map fun f => f.name) = "ws" :: rest)
    (hop : operatorLogic r.operator = some l) :
    fieldRequirementStep SN b r =
        Result.ok { b with expressions := b.expressions ++
          (r.valuesList.map fun v =>
            { path := ".".intercalate ("object" :: rest), values := [v],
              kind := ExprKind.Wildcard, logic := l }) } ∧
      (l = LogicType.Must ↔
        r.operator = Operator.Exists ∨ r.operator = Operator.DoesNotExist ∨
          r.operator = Operator.Equals ∨ r.operator = Operator.DoubleEquals) ∧
      (l = LogicType.MustNot ↔
        r.operator = Operator.NotEquals ∨ r.operator = Operator.NotIn) ∧
      ∀ (opts : ListOptions) (pre post : List FieldRequirement) (b0 b1 : QueryBuilder),
        iterated opts.EnhancedFieldSelector = pre ++ r :: post →
        applyListOptionToQueryBuilder SN b0 opts = Result.ok b1 →
          b1.expressions =
            (b0.expressions ++ headExprs opts ++ pre.flatMap fieldExprs) ++
              (r.valuesList.map fun v =>
                { path := ".".intercalate ("object" :: rest), values := [v],
                  kind := ExprKind.Wildcard, logic := l }) ++
              post.flatMap fieldExprs := by
  have hne : r.fields ≠ [] := by
    intro h0
    rw [h0] at hfields
    simp at hfields
  have hx := fieldExprs_ws r l rest hfields hop
  have ht := operatorLogic_table r.operator
  rw [hop] at ht
  refine ⟨?_, ?_, ?_, ?_⟩
  · rw [fieldRequirementStep_ok SN b r hnl hne, hx]
  · rw [← ht.1]
    simp
  · rw [← ht.2.1]
    simp
  · intro opts pre post b0 b1 hsplit h
    rw [(apply_ok_imp SN b0 b1 opts h).2, hsplit]
    simp [hx, List.append_assoc]

/-- Witness of C11: the requirement `ws.metadata.name != fo*, ba*` adds two
Forbidden Wildcard expressions over `object.metadata.name`. -/
theorem ws_requirement_adds_wildcards_witness :
    fieldRequirementStep "es" NewQueryBuilder wsRequirement =
      Result.ok
        { size := 500, from_ := 0, sort := [],
          expressions :=
            [{ path := "object.metadata.name", values := ["fo*"], kind := ExprKind.Wildcard,
               logic := LogicType.MustNot },
             { path := "object.metadata.name", values := ["ba*"], kind := ExprKind.Wildcard,
               logic := LogicType.MustNot }] } :=
  (ws_requirement_adds_wildcards "es" NewQueryBuilder wsRequirement LogicType.MustNot
    ["metadata", "name"] (by decide) (by decide) (by decide)).1.trans (by decide)

/-- C12: the translation compiles the sort list from `OrderBy`: whenever no
requirement of the enhanced field selector stops it, it returns nil and
leaves a builder whose sort list has one entry for each key, in the same
order, and every builder it returns with nil has that sort list. Each entry
is the single key map that `sortQuery` returns, from the resolved path to the
map from `order` to `desc` for a descending key and to `asc` otherwise, where
the five aliases resolve to their constants and any other key `k` to
`object.` followed by `k`. -/
theorem sort_list_of_order_by (SN : String) (b : QueryBuilder) (opts : ListOptions) :
    ((∀ r ∈ iterated opts.EnhancedFieldSelector,
          (∀ f ∈ r.fields, f.isList = false) ∧ r.fields ≠ []) →
        ∃ b1, applyListOptionToQueryBuilder SN b opts = Result.ok b1 ∧
          b1.sort = opts.OrderBy.map fun o =>
            [(if o.Field = "cluster" then ClusterPath
              else if o.Field = "namespace" then NameSpacePath
              else if o.Field = "name" then NamePath
              else if o.Field = "created_at" then CreationTimestampPath
              else if o.Field = "resource_version" then ResourceVersionPath
              else "object." ++ o.Field,
              [("order", if o.Desc then "desc" else "asc")])]) ∧
      (∀ b1, applyListOptionToQueryBuilder SN b opts = Result.ok b1 →
        b1.sort = opts.OrderBy.map fun o =>
          [(if o.Field = "cluster" then ClusterPath
            else if o.Field = "namespace" then NameSpacePath
            else if o.Field = "name" then NamePath
            else if o.Field = "created_at" then CreationTimestampPath
            else if o.Field = "resource_version" then ResourceVersionPath
            else "object." ++ o.Field,
            [("order", if o.Desc then "desc" else "asc")])]) ∧
      (∀ (k : String) (desc : Bool),
        sortQuery k desc =
          [(if k = "cluster" then ClusterPath
            else if k = "namespace" then NameSpacePath
            else if k = "name" then NamePath
            else if k = "created_at" then CreationTimestampPath
            else if k = "resource_version" then ResourceVersionPath
            else "object." ++ k,
            [("order", if desc then "desc" else "asc")])]) ∧
      sortQuery "created_at" true = [(CreationTimestampPath, [("order", "desc")])] ∧
      sortQuery "custom.x" false = [("object.custom.x", [("order", "asc")])] := by
  have hq : ∀ (k : String) (desc : Bool),
      sortQuery k desc =
        [(if k = "cluster" then ClusterPath
          else if k = "namespace" then NameSpacePath
          else if k = "name" then NamePath
          else if k = "created_at" then CreationTimestampPath
          else if k = "resource_version" then ResourceVersionPath
          else "object." ++ k,
          [("order", if desc then "desc" else "asc")])] := by
    intro k desc
    simp only [sortQuery, intercalate_object_key]
    cases desc <;> simp
  have hs : ∀ b0 : QueryBuilder,
      (applyPaging b0 opts).sort = opts.OrderBy.map fun o =>
        [(if o.Field = "cluster" then ClusterPath
          else if o.Field = "namespace" then NameSpacePath
          else if o.Field = "name" then NamePath
          else if o.Field = "created_at" then CreationTimestampPath
          else if o.Field = "resource_version" then ResourceVersionPath
          else "object." ++ o.Field,
          [("order", if o.Desc then "desc" else "asc")])] := by
    intro b0
    simp only [applyPaging, sort_foldl_eq, List.nil_append]
    simp only [hq]
  refine ⟨?_, ?_, hq, by decide, by decide⟩
  · intro hp
    exact ⟨_, apply_ok_of_plain SN b opts hp, hs _⟩
  · intro b1 h
    rw [(apply_ok_imp SN b b1 opts h).2]
    exact hs _

/-- Witness of C12: for the keys `created_at` descending and `custom.x`
ascending the translation returns nil with a sort list of two entries, the
first on the creation timestamp path and the second on `object.custom.x`. -/
theorem sort_list_of_order_by_witness :
    applyListOptionToQueryBuilder "es" NewQueryBuilder sortOptions =
        Result.ok sortBuilder ∧
      sortBuilder.sort =
        [[("object.metadata.creationTimestamp", [("order", "desc")])],
         [("object.custom.x", [("order", "asc")])]] :=
  ⟨by decide,
   ((sort_list_of_order_by "es" NewQueryBuilder sortOptions).2.1 sortBuilder
      (by decide)).trans (by decide)⟩

/-- C13: on every successful call of `genListQuery`, the step between the
translation of the options and the scoping expressions adds the Required
Term expression over `OwnerReferencePath` with the supplied owner identifiers
when exactly one cluster name was requested and the owner UID or the owner
name is not empty, and adds nothing in every other case. -/
theorem owner_term_iff (SN : String) (s : ResourceStorage) (ownerIds : List String)
    (opts : ListOptions) (b0 : QueryBuilder)
    (h : applyListOptionToQueryBuilder SN NewQueryBuilder opts = Result.ok b0) :
    ((sliceLen opts.ClusterNames = 1 ∧
          (opts.OwnerUID.utf8ByteSize ≠ 0 ∨ opts.OwnerName.utf8ByteSize ≠ 0)) →
        genListQueryBuilder SN s ownerIds opts =
          Result.ok { b0 with expressions := b0.expressions ++
            [{ path := OwnerReferencePath, values := ownerIds, kind := ExprKind.Term,
               logic := LogicType.Must }] ++ scopeTerms s }) ∧
      (¬ (sliceLen opts.ClusterNames = 1 ∧
          (opts.OwnerUID.utf8ByteSize ≠ 0 ∨ opts.OwnerName.utf8ByteSize ≠ 0)) →
        genListQueryBuilder SN s ownerIds opts =
          Result.ok { b0 with expressions := b0.expressions ++ scopeTerms s }) := by
  rw [genListQueryBuilder_ok SN s ownerIds opts b0 h]
  refine ⟨?_, ?_⟩
  · intro hc
    simp only [ownerTerms, if_pos hc]
    rfl
  · intro hc
    simp only [ownerTerms, if_neg hc, List.append_nil]

/-- Witness of C13: one cluster name and an owner UID, with the resolved
owner identifiers `o1, o2`. -/
theorem owner_term_iff_witness :
    genListQueryBuilder "es" podsStorage ["o1", "o2"] ownerOptions =
      Result.ok
        { size := 500, from_ := 0, sort := [],
          expressions :=
            [NewTerms ClusterPath ["c1"]] ++
              [{ path := OwnerReferencePath, values := ["o1", "o2"], kind := ExprKind.Term,
                 logic := LogicType.Must }] ++ scopeTerms podsStorage } :=
  (owner_term_iff "es" podsStorage ["o1", "o2"] ownerOptions
    { size := 500, from_ := 0, sort := [], expressions := [NewTerms ClusterPath ["c1"]] }
    (by decide)).1 (by decide)

/-- C14: when at least one of the two time bounds is present the time block
appends exactly one Range expression over `CreationTimestampPath` with lower
bound `Since` and upper bound `Before`; when both are absent it leaves the
builder as it is; and on success the Range expressions of the builder are
those it held before, followed by that one expression, if any. -/
theorem time_range_expression (b : QueryBuilder) (opts : ListOptions) :
    ((opts.Since ≠ none ∨ opts.Before ≠ none) →
        (applyTimeRange b opts).expressions =
          b.expressions ++
            [{ path := CreationTimestampPath, values := [],
               kind := ExprKind.Range opts.Since opts.Before, logic := LogicType.Must }]) ∧
      ((opts.Since = none ∧ opts.Before = none) → applyTimeRange b opts = b) ∧
      ∀ (SN : String) (b1 : QueryBuilder),
        applyListOptionToQueryBuilder SN b opts = Result.ok b1 →
          b1.expressions.filter isRange =
            b.expressions.filter isRange ++
              if opts.Since ≠ none ∨ opts.Before ≠ none then
                [{ path := CreationTimestampPath, values := [],
                   kind := ExprKind.Range opts.Since opts.Before, logic := LogicType.Must }]
              else [] := by
  have hr : rangeExprs opts =
      if opts.Since ≠ none ∨ opts.Before ≠ none then
        [{ path := CreationTimestampPath, values := [],
           kind := ExprKind.Range opts.Since opts.Before, logic := LogicType.Must }]
      else [] := by
    unfold rangeExprs NewRange
    cases opts.Since <;> cases opts.Before <;> simp
  refine ⟨?_, ?_, ?_⟩
  · intro hc
    rw [applyTimeRange_eq, hr, if_pos hc]
  · intro hc
    rw [applyTimeRange_eq, hr, if_neg (by simp [hc.1, hc.2])]
    simp
  · intro SN b1 h
    rw [(apply_ok_imp SN b b1 opts h).2, ← hr]
    simp only [applyPaging_expressions, headExprs, List.filter_append,
      filter_isRange_nameSetTerms, filter_isRange_labelTerms, filter_isRange_fuzzyExprs,
      filter_isRange_fieldExprs, List.append_nil, List.nil_append]
    congr 1
    unfold rangeExprs
    split <;> simp [isRange, NewRange]

/-- Witness of C14: a lower bound alone gives one Range expression whose
upper bound is absent. -/
theorem time_range_expression_witness :
    (applyTimeRange NewQueryBuilder sinceOptions).expressions =
      NewQueryBuilder.expressions ++
        [{ path := CreationTimestampPath, values := [],
           kind := ExprKind.Range sinceOptions.Since sinceOptions.Before,
           logic := LogicType.Must }] :=
  (time_range_expression NewQueryBuilder sinceOptions).1 (by decide)

/-- C15 (as stated, refuted): a label requirement with operator Exists, a
name set that is present and empty, and an empty list of resolved owner
identifiers each give a Term expression whose value list is empty. -/
theorem term_with_empty_values :
    genListQueryBuilder "es" podsStorage [] labelExistsOptions =
        Result.ok { size := 500, from_ := 0, sort := [],
                    expressions :=
                      [{ path := LabelPath, values := [], kind := ExprKind.Term,
                         logic := LogicType.Must }] ++ podsScope } ∧
      genListQueryBuilder "es" podsStorage [] emptyClusterSetOptions =
        Result.ok { size := 500, from_ := 0, sort := [],
                    expressions :=
                      [{ path := ClusterPath, values := [], kind := ExprKind.Term,
                         logic := LogicType.Must }] ++ podsScope } ∧
      genListQueryBuilder "es" podsStorage [] ownerOptions =
        Result.ok { size := 500, from_ := 0, sort := [],
                    expressions :=
                      [{ path := ClusterPath, values := ["c1"], kind := ExprKind.Term,
                         logic := LogicType.Must },
                       { path := OwnerReferencePath, values := [], kind := ExprKind.Term,
                         logic := LogicType.Must }] ++ podsScope } := by
  decide

/-- C15 (amended): on every successful call of `genListQuery` each Wildcard
and each Fuzzy expression of the builder has exactly one value, and every
Term expression has a non-empty value list if and only if the lists the Term
expressions are built from are not empty: every name set that is present,
the value list of every requirement of the label selector with a mapped
operator, the value list of every requirement of the enhanced field selector
with a mapped operator whose first field name is not `ws`, and, when the
owner step applies, the list of owner identifiers. -/
theorem values_nonempty_of_sources (SN : String) (s : ResourceStorage) (ownerIds : List String)
    (opts : ListOptions) (b1 : QueryBuilder)
    (h : genListQueryBuilder SN s ownerIds opts = Result.ok b1) :
    (∀ e ∈ b1.expressions, e.kind = ExprKind.Wildcard ∨ e.kind = ExprKind.Fuzzy →
        ∃ v, e.values = [v]) ∧
      ((∀ e ∈ b1.expressions, e.kind = ExprKind.Term → e.values ≠ []) ↔
        ((∀ names, opts.ClusterNames = some names → names ≠ []) ∧
          (∀ names, opts.Namespaces = some names → names ≠ []) ∧
          (∀ names, opts.Names = some names → names ≠ []) ∧
          (∀ r ∈ iterated opts.LabelSelector, operatorLogic r.operator ≠ none →
            r.valuesList ≠ []) ∧
          (∀ r ∈ iterated opts.EnhancedFieldSelector, operatorLogic r.operator ≠ none →
            (r.fields.map fun f => f.name).head? ≠ some "ws" → r.valuesList ≠ []) ∧
          (sliceLen opts.ClusterNames = 1 ∧
              (opts.OwnerUID.utf8ByteSize ≠ 0 ∨ opts.OwnerName.utf8ByteSize ≠ 0) →
            ownerIds ≠ []))) := by
  have hb := genListQueryBuilder_ok_imp SN s ownerIds opts b1 h
  have hplain := genListQueryBuilder_ok_plain SN s ownerIds opts b1 h
  refine ⟨?_, ⟨?_, ?_⟩⟩
  · intro e he hk
    rw [hb] at he
    simp only [List.mem_append] at he
    rcases he with he | he | he | he | he | he | he
    · rcases mem_nameSetTerms opts e he with ⟨n, _, rfl⟩ | ⟨n, _, rfl⟩ | ⟨n, _, rfl⟩ <;>
        simp [NewTerms] at hk
    · unfold rangeExprs at he
      split at he
      · rw [List.mem_singleton] at he
        subst he
        simp [NewRange] at hk
      · simp at he
    · obtain ⟨r, _, hkind, _⟩ := mem_labelTerms _ e he
      rw [hkind] at hk
      simp at hk
    · exact (mem_fuzzyExprs _ e he).2
    · simp only [List.mem_flatMap] at he
      obtain ⟨r, _, her⟩ := he
      rcases fieldExprs_kind r e her with ⟨_, v, _, hv⟩ | ⟨hkind, _⟩
      · exact ⟨v, hv⟩
      · rw [hkind] at hk
        simp at hk
    · unfold ownerTerms at he
      split at he
      · rw [List.mem_singleton] at he
        subst he
        simp [NewTerms] at hk
      · simp at he
    · simp only [scopeTerms, List.mem_cons, List.mem_singleton, List.not_mem_nil,
        or_false] at he
      rcases he with rfl | rfl | rfl <;> simp [NewTerms] at hk
  · intro hall
    refine ⟨?_, ?_, ?_, ?_, ?_, ?_⟩
    · intro names hn
      have hm : NewTerms ClusterPath names ∈ b1.expressions := by
        rw [hb]
        apply List.mem_append_left
        simp [nameSetTerms, hn]
      exact hall _ hm rfl
    · intro names hn
      have hm : NewTerms NameSpacePath names ∈ b1.expressions := by
        rw [hb]
        apply List.mem_append_left
        simp [nameSetTerms, hn]
      exact hall _ hm rfl
    · intro names hn
      have hm : NewTerms NamePath names ∈ b1.expressions := by
        rw [hb]
        apply List.mem_append_left
        simp [nameSetTerms, hn]
      exact hall _ hm rfl
    · intro r hr hop
      obtain ⟨l, hl⟩ := Option.ne_none_iff_exists'.mp hop
      have hm : Expression.mk LabelPath r.valuesList ExprKind.Term l ∈ b1.expressions := by
        rw [hb]
        apply List.mem_append_right
        apply List.mem_append_right
        apply List.mem_append_left
        simp only [labelTerms, List.mem_filterMap, Option.map_eq_some']
        exact ⟨r, hr, l, hl, rfl⟩
      exact hall _ hm rfl
    · intro r hr hop hws
      obtain ⟨l, hl⟩ := Option.ne_none_iff_exists'.mp hop
      have hx := fieldExprs_plain r l (hplain r hr).2 hws hl
      have hm : Expression.mk ("object." ++ ".".intercalate (r.fields.map fun f => f.name))
          r.valuesList ExprKind.Term l ∈ b1.expressions := by
        rw [hb]
        apply List.mem_append_right
        apply List.mem_append_right
        apply List.mem_append_right
        apply List.mem_append_right
        apply List.mem_append_left
        simp only [List.mem_flatMap]
        exact ⟨r, hr, by rw [hx]; exact List.mem_singleton.mpr rfl⟩
      exact hall _ hm rfl
    · intro hc
      have hm : NewTerms OwnerReferencePath ownerIds ∈ b1.expressions := by
        rw [hb]
        apply List.mem_append_right
        apply List.mem_append_right
        apply List.mem_append_right
        apply List.mem_append_right
        apply List.mem_append_right
        apply List.mem_append_left
        simp [ownerTerms, hc]
      exact hall _ hm rfl
  · rintro ⟨hc, hn, hm, hl, hf, ho⟩ e he hk
    rw [hb] at he
    simp only [List.mem_append] at he
    rcases he with he | he | he | he | he | he | he
    · rcases mem_nameSetTerms opts e he with ⟨n, hs, rfl⟩ | ⟨n, hs, rfl⟩ | ⟨n, hs, rfl⟩
      · exact hc n hs
      · exact hn n hs
      · exact hm n hs
    · unfold rangeExprs at he
      split at he
      · rw [List.mem_singleton] at he
        subst he
        simp [NewRange] at hk
      · simp at he
    · obtain ⟨r, hr, hop, hv⟩ := mem_labelTerms_mapped _ e he
      rw [hv]
      exact hl r hr hop
    · rw [(mem_fuzzyExprs _ e he).1] at hk
      simp at hk
    · simp only [List.mem_flatMap] at he
      obtain ⟨r, hr, her⟩ := he
      obtain ⟨hop, hws, hv⟩ := fieldExprs_term r e her hk
      rw [hv]
      exact hf r hr hop hws
    · unfold ownerTerms at he
      split at he
      · rename_i hcond
        rw [List.mem_singleton] at he
        subst he
        exact ho hcond
      · simp at he
    · simp only [scopeTerms, List.mem_cons, List.mem_singleton, List.not_mem_nil,
        or_false] at he
      rcases he with rfl | rfl | rfl <;> simp [NewTerms]

/-- Witness of C15 (amended): for the name set `a, b`, without owner filter
and with an empty list of owner identifiers, the translation succeeds and
the Term expression over the name path has values. -/
theorem values_nonempty_of_sources_witness :
    genListQueryBuilder "es" podsStorage [] namesOnlyOptions =
        Result.ok
          { size := 500, from_ := 0, sort := [],
            expressions := [NewTerms NamePath ["a", "b"]] ++ podsScope } ∧
      (NewTerms NamePath ["a", "b"]).values ≠ [] :=
  ⟨by decide,
   (values_nonempty_of_sources "es" podsStorage [] namesOnlyOptions
      { size := 500, from_ := 0, sort := [],
        expressions := [NewTerms NamePath ["a", "b"]] ++ podsScope }
      (by decide)).2.mpr
      ⟨(by intro names hn; cases hn),
       (by intro names hn; cases hn),
       (by intro names hn; cases hn; decide),
       (by simp [iterated, namesOnlyOptions, emptyOptions]),
       (by simp [iterated, namesOnlyOptions, emptyOptions]),
       (by decide)⟩
      (NewTerms NamePath ["a", "b"]) (by decide) rfl⟩

/-- C16: a requirement of the extra label selector whose key is not the
reserved key leaves the builder as it is, and the whole translation returns
the same result, error or not, as on the options without that
requirement. -/
theorem other_extra_key_ignored (SN : String) (b : QueryBuilder) (opts : ListOptions)
    (sel : Selector LabelRequirement) (pre post : List LabelRequirement) (r : LabelRequirement)
    (hsel : opts.ExtraLabelSelector = some sel) (hreq : sel.requirements = pre ++ r :: post)
    (hkey : r.key ≠ ElasticSearchLabelFuzzyName) :
    extraRequirementStep b r = b ∧
      applyListOptionToQueryBuilder SN b opts =
        applyListOptionToQueryBuilder SN b
          { opts with
            ExtraLabelSelector :=
              some { requirements := pre ++ post, selectable := sel.selectable } } := by
  refine ⟨?_, ?_⟩
  · rw [extraRequirementStep_eq, fuzzyExprs_other_key r hkey]
    simp
  · have hx : (iterated opts.ExtraLabelSelector).flatMap fuzzyExprs =
        (iterated (some ({ requirements := pre ++ post, selectable := sel.selectable } :
          Selector LabelRequirement))).flatMap fuzzyExprs := by
      rw [hsel]
      simp only [iterated, hreq]
      split
      · simp [fuzzyExprs_other_key r hkey]
      · rfl
    rw [apply_eq_fieldLoop, apply_eq_fieldLoop]
    simp only [headExprs, nameSetTerms, rangeExprs, hx, applyPaging]

/-- Witness of C16: the requirement with the key `other.io/key` between two
others can be dropped. -/
theorem other_extra_key_ignored_witness :
    applyListOptionToQueryBuilder "es" NewQueryBuilder mixedExtraOptions =
      applyListOptionToQueryBuilder "es" NewQueryBuilder
        { mixedExtraOptions with
          ExtraLabelSelector :=
            some { requirements :=
                     [{ key := "a", operator := Operator.Equals, valuesList := ["1"] }] ++
                       [{ key := ElasticSearchLabelFuzzyName, operator := Operator.Equals,
                          valuesList := ["foo"] }],
                   selectable := mixedExtraSelector.selectable } } :=
  (other_extra_key_ignored "es" NewQueryBuilder mixedExtraOptions mixedExtraSelector
    [{ key := "a", operator := Operator.Equals, valuesList := ["1"] }]
    [{ key := ElasticSearchLabelFuzzyName, operator := Operator.Equals, valuesList := ["foo"] }]
    { key := "other.io/key", operator := Operator.Equals, valuesList := ["x"] }
    rfl rfl (by decide)).2

/-- C17 (the code at the failing input): for an error response whose text
ends in a percent sign, or holds one before a letter, and does not mention
that the index exists, the message of the error `ensureIndex` returns is not
the text: `fmt.Errorf` reads the text as a format. -/
theorem ensureIndex_reads_text_as_format :
    ensureIndex (errorClient "[429 Too Many Requests] disk usage 100%") "mapping" "idx" =
        some (IndexError.message "[429 Too Many Requests] disk usage 100%!(NOVERB)") ∧
      ensureIndex (errorClient "[400 Bad Request] invalid index name [a%b]") "mapping" "idx" =
        some (IndexError.message "[400 Bad Request] invalid index name [a%!b(MISSING)]") ∧
      ensureIndex (errorClient "[400 Bad Request] 50%% full") "mapping" "idx" =
        some (IndexError.message "[400 Bad Request] 50% full") := by
  decide

/-- C18: a requirement whose operator is In, GreaterThan or LessThan adds no
expression and raises no error. For a requirement of the label selector the
loop body leaves the builder as it is; for a requirement of the enhanced
field selector that has fields, none of them a list, the loop body returns
nil with the builder as it is; and in both cases the whole translation
returns the same result as on the options without the requirement. -/
theorem unmapped_operator_adds_nothing (SN : String) (b : QueryBuilder) :
    (∀ r : LabelRequirement,
        (r.operator = Operator.In ∨ r.operator = Operator.GreaterThan ∨
          r.operator = Operator.LessThan) →
        labelRequirementStep b r = b ∧
        ∀ (opts : ListOptions) (sel : Selector LabelRequirement)
          (pre post : List LabelRequirement),
          opts.LabelSelector = some sel → sel.requirements = pre ++ r :: post →
          applyListOptionToQueryBuilder SN b opts =
            applyListOptionToQueryBuilder SN b
              { opts with
                LabelSelector :=
                  some { requirements := pre ++ post, selectable := sel.selectable } }) ∧
      (∀ r : FieldRequirement,
        (r.operator = Operator.In ∨ r.operator = Operator.GreaterThan ∨
          r.operator = Operator.LessThan) →
        (∀ f ∈ r.fields, f.isList = false) → r.fields ≠ [] →
        fieldRequirementStep SN b r = Result.ok b ∧
        ∀ (opts : ListOptions) (sel : Selector FieldRequirement)
          (pre post : List FieldRequirement),
          opts.EnhancedFieldSelector = some sel → sel.requirements = pre ++ r :: post →
          applyListOptionToQueryBuilder SN b opts =
            applyListOptionToQueryBuilder SN b
              { opts with
                EnhancedFieldSelector :=
                  some { requirements := pre ++ post, selectable := sel.selectable } }) := by
  refine ⟨?_, ?_⟩
  · intro r hop
    have hn : operatorLogic r.operator = none := (operatorLogic_table r.operator).2.2.mpr hop
    have hl : labelTerms [r] = [] := by simp [labelTerms, hn]
    refine ⟨?_, ?_⟩
    · rw [labelRequirementStep_eq, hl]
      simp
    · intro opts sel pre post hsel hreq
      have hx : labelTerms (iterated opts.LabelSelector) =
          labelTerms (iterated (some (⟨pre ++ post, sel.selectable⟩ :
            Selector LabelRequirement))) := by
        rw [hsel]
        simp only [iterated, hreq]
        split
        · simp [labelTerms, List.filterMap_append, hn]
        · rfl
      rw [apply_eq_fieldLoop, apply_eq_fieldLoop]
      simp only [headExprs, nameSetTerms, rangeExprs, hx, applyPaging]
  · intro r hop hnl hne
    have hn : operatorLogic r.operator = none := (operatorLogic_table r.operator).2.2.mpr hop
    have hstep : ∀ b0, fieldRequirementStep SN b0 r = Result.ok b0 := by
      intro b0
      rw [fieldRequirementStep_ok SN b0 r hnl hne, fieldExprs_unmapped r hn]
      simp
    refine ⟨hstep b, ?_⟩
    intro opts sel pre post hsel hreq
    have hx : ∀ b0, fieldLoop SN (iterated opts.EnhancedFieldSelector) b0 =
        fieldLoop SN (iterated (some (⟨pre ++ post, sel.selectable⟩ :
          Selector FieldRequirement))) b0 := by
      intro b0
      rw [hsel]
      simp only [iterated, hreq]
      split
      · exact fieldLoop_skip SN pre post r hstep b0
      · rfl
    rw [apply_eq_fieldLoop, apply_eq_fieldLoop, hx]
    simp only [headExprs, nameSetTerms, rangeExprs, applyPaging]

/-- Witness of C18: the field requirement `metadata.name in (b)` returns nil
and leaves the fresh builder as it is. -/
theorem unmapped_operator_adds_nothing_witness :
    fieldRequirementStep "es" NewQueryBuilder metadataNameInRequirement =
      Result.ok NewQueryBuilder :=
  ((unmapped_operator_adds_nothing "es" NewQueryBuilder).2 metadataNameInRequirement
    (Or.inl rfl) (by decide) (by decide)).1

/-- C19: when each requirement of the enhanced field selector has at least
one field the translation does not panic. Where `fields[0]` is read, that is
for a requirement without list field, the collected names are the names of
all its fields and so not empty; and the shift of a non-empty list of names
is one longer, keeps the first name in slot 0 and holds the original names
from slot 1 on. -/
theorem no_index_out_of_range (SN : String) (b : QueryBuilder) (opts : ListOptions)
    (hne : ∀ r ∈ iterated opts.EnhancedFieldSelector, r.fields ≠ []) :
    applyListOptionToQueryBuilder SN b opts ≠ Result.panicked ∧
      (∀ r ∈ iterated opts.EnhancedFieldSelector, (∀ f ∈ r.fields, f.isList = false) →
        (r.fields.foldl (collectFields SN) ([], [])).2 = [] ∧
        (r.fields.foldl (collectFields SN) ([], [])).1 = r.fields.map (fun f => f.name) ∧
        (r.fields.foldl (collectFields SN) ([], [])).1 ≠ []) ∧
      ∀ names : List String, names ≠ [] →
        (shiftRight names).length = names.length + 1 ∧
        (shiftRight names).head? = names.head? ∧
        (shiftRight names).drop 1 = names := by
  refine ⟨?_, ?_, ?_⟩
  · rw [apply_eq_fieldLoop]
    rcases fieldLoop_nonempty SN (iterated opts.EnhancedFieldSelector)
        { b with expressions := b.expressions ++ headExprs opts } hne with
      ⟨_, b1, e, h⟩ | ⟨_, h⟩ <;> rw [h] <;> simp
  · intro r hr hnl
    rw [collect_foldl_eq]
    simp only [List.nil_append, filter_isList_eq_nil hnl, filter_not_isList_eq_self hnl,
      List.map_nil, true_and]
    intro h0
    exact hne r hr (List.map_eq_nil_iff.mp h0)
  · intro names hn
    cases names with
    | nil => exact absurd rfl hn
    | cons f0 rest => simp [shiftRight_cons]

/-- Witness of C19: the options with the requirements `metadata.name in (b)`
and `metadata.name = b` do not panic. -/
theorem no_index_out_of_range_witness :
    applyListOptionToQueryBuilder "es" NewQueryBuilder unmappedFieldOptions ≠ Result.panicked :=
  (no_index_out_of_range "es" NewQueryBuilder unmappedFieldOptions (by decide)).1

/-- C20: `simpleMapExtract` walks a dotted path through nested maps. If the
value at `p` is a map `m`, the value at `p.q` is the value at `q` in `m`; if
the value at `p` is no map, the value at `p.q` is nil; and for a path `p`
without a dot the value is `object[p]`: the value stored under the key `p`
when the map holds that key, and nil when no entry of the map has the key. -/
theorem simpleMapExtract_compositional (object : List (String × Value)) (p q : String) :
    (∀ m, simpleMapExtract p object = Value.object m →
        simpleMapExtract (p ++ "." ++ q) object = simpleMapExtract q m) ∧
      ((∀ m, simpleMapExtract p object ≠ Value.object m) →
        simpleMapExtract (p ++ "." ++ q) object = Value.nil) ∧
      ('.' ∉ p.toList → ∀ (before : List (String × Value)) (v : Value)
          (after : List (String × Value)),
        object = before ++ (p, v) :: after → (∀ kv ∈ before, kv.1 ≠ p) →
          simpleMapExtract p object = v) ∧
      ('.' ∉ p.toList → (∀ kv ∈ object, kv.1 ≠ p) →
        simpleMapExtract p object = Value.nil) := by
  have hplain : '.' ∉ p.toList → simpleMapExtract p object = mapIndex object p := by
    intro hp
    simp only [simpleMapExtract, Split, splitDot_no_dot _ hp, List.map_cons, List.map_nil,
      extractLoop]
    rfl
  refine ⟨?_, ?_, ?_, ?_⟩
  · intro m hm
    simp only [simpleMapExtract] at hm ⊢
    rw [Split_append_dot, extractLoop_append _ _ (Split_ne_nil q), hm]
  · intro hm
    simp only [simpleMapExtract] at hm ⊢
    rw [Split_append_dot, extractLoop_append _ _ (Split_ne_nil q)]
    exact extractLoop_not_object _ (Split_ne_nil q) _ hm
  · intro hp before v after hobj hbefore
    rw [hplain hp, hobj]
    exact mapIndex_first before after p v hbefore
  · intro hp hmissing
    rw [hplain hp]
    exact mapIndex_missing object p hmissing

/-- Witness of C20: in the pod object the value at `metadata.name` is the
name stored in the nested map, the value at the missing key `nothing` is nil,
and the value at `kind.name` is nil because the value at `kind` is no map. -/
theorem simpleMapExtract_compositional_witness :
    simpleMapExtract "metadata.name" podObject = Value.other "pod-1" ∧
      simpleMapExtract "kind" podObject = Value.other "Pod" ∧
      simpleMapExtract "nothing" podObject = Value.nil ∧
      simpleMapExtract "kind.name" podObject = Value.nil :=
  ⟨((simpleMapExtract_compositional podObject "metadata" "name").1
      [("name", Value.other "pod-1")] (by rfl)).trans (by rfl),
   (simpleMapExtract_compositional podObject "kind" "name").2.2.1 (by decide)
     [] (Value.other "Pod") [("metadata", Value.object [("name", Value.other "pod-1")])]
     (by rfl) (by simp),
   (simpleMapExtract_compositional podObject "nothing" "name").2.2.2 (by decide)
     (by simp [podObject]),
   (simpleMapExtract_compositional podObject "kind" "name").2.1
     (fun m hm => Value.noConfusion (show Value.other "Pod" = Value.object m from hm))⟩

end esstorage
